import Mathlib

/-!
Verification of the resilient concurrent fetch orchestrator of this
repository, shallowly embedded from the two Python implementations in
docs/comparison-tests/results-with-mcp/python/test-5-result.py (namespace
WithMcp) and docs/comparison-tests/results-without-mcp/python/test-5-result.py
(namespace WithoutMcp).

Modelling conventions:
* wall-clock instants and Python floats are rationals (ℚ); the current time is
  threaded explicitly where the source reads time.monotonic();
* Python dicts keyed by endpoint strings become total functions into Option
  (circuit-breaker registries) or association lists with insert-or-replace
  semantics (the result maps, where the key set matters);
* fallible Python code returns Except String (the String is the message the
  raised exception would carry);
* the observable actions of a run (breaker consultations, rate-limiter
  acquisitions, transport invocations, breaker recordings, back-off sleeps,
  progress-callback invocations) are collected in an event trace, listed in
  execution order;
* asyncio.gather is modelled by processing the per-endpoint tasks in input
  order.  For the properties considered here this is faithful: distinct
  endpoints touch disjoint keys of every shared map, so the final result maps
  and each endpoint's own trace do not depend on the interleaving.
-/

/-- Outcome of one transport-collaborator invocation (HttpClient.get /
fetcher), indexed by the invocation number for that retry sequence: the remote
answers with a payload, raises an exception with a message, or exceeds the
per-attempt timeout enforced by asyncio.wait_for. -/
inductive TransportResult where
  | ok (payload : String)
  | err (msg : String)
  | timeout
deriving DecidableEq

/-- One observable action of a fetch run. -/
inductive Event where
  | breakerCheck (endpoint : String) (available : Bool)
  | acquireToken
  | transportCall (endpoint : String) (attempt : ℕ)
  | recordSuccess (endpoint : String)
  | recordFailure (endpoint : String)
  | backoffSleep (seconds : ℚ)
  | progressCall
deriving DecidableEq

def isAcquire : Event → Bool
  | .acquireToken => true
  | _ => false

def isTransport : Event → Bool
  | .transportCall _ _ => true
  | _ => false

def isBreakerCheck : Event → Bool
  | .breakerCheck _ _ => true
  | _ => false

def isRecordSuccess : Event → Bool
  | .recordSuccess _ => true
  | _ => false

def isRecordFailure : Event → Bool
  | .recordFailure _ => true
  | _ => false

/-- Number of events in a trace satisfying a predicate. -/
def countEv (p : Event → Bool) : List Event → ℕ
  | [] => 0
  | x :: rest => (if p x then 1 else 0) + countEv p rest

def acquireCount (evs : List Event) : ℕ := countEv isAcquire evs

def transportCount (evs : List Event) : ℕ := countEv isTransport evs

def breakerCheckCount (evs : List Event) : ℕ := countEv isBreakerCheck evs

def recordSuccessCount (evs : List Event) : ℕ := countEv isRecordSuccess evs

def recordFailureCount (evs : List Event) : ℕ := countEv isRecordFailure evs

/-- Token discipline of a trace: walking the events with a balance of
previously acquired, not yet spent rate-limiter tokens, every transport
invocation must spend one token acquired earlier.  This is the formal reading
of "every attempt acquires a rate-limiter token before calling the
transport". -/
def tokenBalanceOk : ℕ → List Event → Bool
  | _, [] => true
  | bal, Event.acquireToken :: rest => tokenBalanceOk (bal + 1) rest
  | bal, Event.transportCall _ _ :: rest =>
      match bal with
      | 0 => false
      | b + 1 => tokenBalanceOk b rest
  | bal, _ :: rest => tokenBalanceOk bal rest

/-- Python dict assignment d[k] = v on an association list: replace the value
in place if the key is present, otherwise append the new binding. -/
def dinsert {β : Type} (k : String) (v : β) : List (String × β) → List (String × β)
  | [] => [(k, v)]
  | (k', v') :: rest => if k' = k then (k', v) :: rest else (k', v') :: dinsert k v rest

/-- The key list of an association list (Python dict key view). -/
def keysOf {β : Type} (d : List (String × β)) : List String := d.map Prod.fst

/-- Pointwise update of a partial map, modelling dict assignment on a
dict embedded as a function into Option. -/
def upd {β : Type} (f : String → Option β) (k : String) (v : β) : String → Option β :=
  fun x => if x = k then some v else f x

namespace WithMcp

/-! ## results-with-mcp/python/test-5-result.py -/

/-- CircuitState (with-mcp): CLOSED / OPEN / HALF_OPEN. -/
inductive CircuitState where
  | CLOSED
  | OPEN
  | HALF_OPEN
deriving DecidableEq

/-- CircuitBreaker (with-mcp): per-endpoint failure counts, open timestamps and
states held in dicts; failure_threshold defaults to 5 and recovery_timeout to
30.0 in the source. -/
structure CircuitBreaker where
  failure_threshold : ℕ
  recovery_timeout : ℚ
  _failure_counts : String → Option ℕ
  _open_times : String → Option ℚ
  _states : String → Option CircuitState

/-- A freshly constructed CircuitBreaker(failure_threshold, recovery_timeout):
all three dicts empty. -/
def CircuitBreaker.init (threshold : ℕ) (recovery : ℚ) : CircuitBreaker :=
  { failure_threshold := threshold
    recovery_timeout := recovery
    _failure_counts := fun _ => none
    _open_times := fun _ => none
    _states := fun _ => none }

/-- CircuitBreaker.get_state: unknown endpoints are CLOSED; an OPEN endpoint
whose recovery timeout has elapsed is switched to HALF_OPEN (the method
mutates _states, so the updated breaker is returned alongside the state). -/
def CircuitBreaker.get_state (cb : CircuitBreaker) (endpoint : String) (now : ℚ) :
    CircuitState × CircuitBreaker :=
  match cb._states endpoint with
  | none => (.CLOSED, cb)
  | some st =>
    match st with
    | .OPEN =>
      let open_time := (cb._open_times endpoint).getD 0
      if cb.recovery_timeout ≤ now - open_time then
        (.HALF_OPEN, { cb with _states := upd cb._states endpoint .HALF_OPEN })
      else (.OPEN, cb)
    | s => (s, cb)

/-- CircuitBreaker.is_open: whether the endpoint should be skipped. -/
def CircuitBreaker.is_open (cb : CircuitBreaker) (endpoint : String) (now : ℚ) :
    Bool × CircuitBreaker :=
  let r := cb.get_state endpoint now
  (decide (r.1 = .OPEN), r.2)

/-- CircuitBreaker.record_success: reset the failure count and close the
circuit for the endpoint. -/
def CircuitBreaker.record_success (cb : CircuitBreaker) (endpoint : String) : CircuitBreaker :=
  { cb with
    _failure_counts := upd cb._failure_counts endpoint 0
    _states := upd cb._states endpoint .CLOSED }

/-- CircuitBreaker.record_failure: bump the failure count; once it reaches the
threshold, open the circuit and stamp the opening time. -/
def CircuitBreaker.record_failure (cb : CircuitBreaker) (endpoint : String) (now : ℚ) :
    CircuitBreaker :=
  let n := (cb._failure_counts endpoint).getD 0 + 1
  let cb1 := { cb with _failure_counts := upd cb._failure_counts endpoint n }
  if cb.failure_threshold ≤ n then
    { cb1 with
      _states := upd cb1._states endpoint .OPEN
      _open_times := upd cb1._open_times endpoint now }
  else cb1

/-- RateLimiter (with-mcp): token bucket with float token count.  The bucket
starts full; _last_update is the construction instant. -/
structure RateLimiter where
  _max_requests : ℕ
  _time_window : ℚ
  _tokens : ℚ
  _last_update : ℚ
deriving DecidableEq

/-- RateLimiter(max_requests, time_window) constructed at instant now. -/
def RateLimiter.init (max_requests : ℕ) (time_window : ℚ) (now : ℚ) : RateLimiter :=
  { _max_requests := max_requests
    _time_window := time_window
    _tokens := max_requests
    _last_update := now }

/-- RateLimiter._refill at instant now: add elapsed · (max_requests /
time_window) tokens, capped at max_requests. -/
def RateLimiter._refill (rl : RateLimiter) (now : ℚ) : RateLimiter :=
  { rl with
    _tokens := min (rl._max_requests : ℚ)
      (rl._tokens + (now - rl._last_update) * ((rl._max_requests : ℚ) / rl._time_window))
    _last_update := now }

/-- RateLimiter._wait_for_token: while the stored count is ≤ 0, refill, and if
still ≤ 0 sleep one token's worth of time and refill again.  Time advances by
the slept amount; the recursion is bounded by explicit fuel (the source loops
until wall-clock refills make the count positive).  Returns the limiter and
the instant at which the wait finished. -/
def RateLimiter._wait_for_token (rl : RateLimiter) (now : ℚ) : ℕ → RateLimiter × ℚ
  | 0 => (rl, now)
  | fuel + 1 =>
    if rl._tokens ≤ 0 then
      let rl1 := rl._refill now
      if rl1._tokens ≤ 0 then
        let wait_time := rl1._time_window / (rl1._max_requests : ℚ)
        let now1 := now + wait_time
        let rl2 := rl1._refill now1
        RateLimiter._wait_for_token rl2 now1 fuel
      else (rl1, now)
    else (rl, now)

/-- RateLimiter.acquire at instant now: wait for a token, then consume one.
Note the wait loop exits as soon as the stored count is strictly positive,
not necessarily ≥ 1. -/
def RateLimiter.acquire (rl : RateLimiter) (now : ℚ) (fuel : ℕ) : RateLimiter × ℚ :=
  let w := rl._wait_for_token now fuel
  ({ w.1 with _tokens := w.1._tokens - 1 }, w.2)

/-- One observable step of retry_with_backoff: an invocation of the attempt
function (tagged with the 0-based attempt index) or an inter-attempt sleep. -/
inductive RetryEvent where
  | call (attempt : ℕ)
  | sleep (seconds : ℚ)
deriving DecidableEq

/-- Message of the TypeError Python produces for "raise None", reachable only
when retry_with_backoff is called with max_attempts = 0 (the loop body never
runs and last_exception is still None). -/
def raiseNoneMsg : String := "TypeError: exceptions must derive from BaseException"

/-- Body of retry_with_backoff: attempt is the index of the next invocation,
the second argument the number of attempts still allowed.  On failure with
attempts remaining, sleep base_delay · 2 ^ attempt and retry; the error that
survives is the most recent one. -/
def retryAux {α : Type} (func : ℕ → Except String α) (base_delay : ℚ) (attempt : ℕ) :
    ℕ → Except String α × List RetryEvent
  | 0 => (.error raiseNoneMsg, [])
  | r + 1 =>
    match func attempt with
    | .ok a => (.ok a, [.call attempt])
    | .error e =>
      if r = 0 then (.error e, [.call attempt])
      else
        let rest := retryAux func base_delay (attempt + 1) r
        (rest.1, .call attempt :: .sleep (base_delay * 2 ^ attempt) :: rest.2)

/-- retry_with_backoff(func, max_attempts, base_delay): the source defaults
are max_attempts = 3 and base_delay = 0.1. -/
def retry_with_backoff {α : Type} (func : ℕ → Except String α) (max_attempts : ℕ)
    (base_delay : ℚ) : Except String α × List RetryEvent :=
  retryAux func base_delay 0 max_attempts

/-- Number of attempt-function invocations in a retry trace. -/
def retryCallCount : List RetryEvent → ℕ
  | [] => 0
  | .call _ :: rest => retryCallCount rest + 1
  | .sleep _ :: rest => retryCallCount rest

/-- The inter-attempt sleeps of a retry trace, in order. -/
def retrySleeps : List RetryEvent → List ℚ
  | [] => []
  | .call _ :: rest => retrySleeps rest
  | .sleep s :: rest => s :: retrySleeps rest

/-- Rendering of retry events into orchestrator events. -/
def retryEventToEvent (endpoint : String) : RetryEvent → Event
  | .call i => .transportCall endpoint i
  | .sleep s => .backoffSleep s

/-- DataAggregator._fetch_endpoint: one transport call guarded by
asyncio.wait_for.  A timeout raises asyncio.TimeoutError, whose str() is the
empty string (the exception carries no message), which is what the caller's
except-block later stores as the failure reason. -/
def _fetch_endpoint (http : String → ℕ → TransportResult) (endpoint : String) (attempt : ℕ) :
    Except String String :=
  match http endpoint attempt with
  | .ok p => .ok p
  | .err m => .error m
  | .timeout => .error ""

/-- ProgressInfo (with-mcp). -/
structure ProgressInfo where
  completed : ℕ
  total : ℕ
  endpoint : String
  success : Bool
  error : Option String
deriving DecidableEq

/-- The mutable orchestration state shared by the fetch_one tasks: the two
result dicts, the completed counter and the circuit breaker. -/
structure AggState where
  successful : List (String × String)
  failed : List (String × String)
  completed : ℕ
  breaker : CircuitBreaker

/-- The progress callback: Python may raise from it, hence Except. -/
abbrev Progress : Type := Option (ProgressInfo → Except String Unit)

/-- fetch_one (the per-endpoint task body of DataAggregator.fetch_all).
Returns the updated shared state, the endpoint's event trace, and the message
of an exception propagating out of the task (only a progress-callback
exception can escape: every transport/retry failure is caught and recorded).
The error string "Circuit breaker open" and the structure of the try/except
follow the source: in the success path the progress callback runs inside the
try-block, so an exception it raises is caught, recorded as a failure of this
endpoint, and the callback is invoked a second time from the except-block. -/
def fetch_one (max_retries : ℕ) (http : String → ℕ → TransportResult)
    (onProgress : Progress) (total : ℕ) (now : ℚ) (st : AggState) (endpoint : String) :
    AggState × List Event × Option String :=
  let checked := st.breaker.is_open endpoint now
  if checked.1 then
    let error := "Circuit breaker open"
    let st1 : AggState :=
      { successful := st.successful
        failed := dinsert endpoint error st.failed
        completed := st.completed + 1
        breaker := checked.2 }
    let evs := [Event.breakerCheck endpoint false]
    match onProgress with
    | none => (st1, evs, none)
    | some f =>
      match f ⟨st1.completed, total, endpoint, false, some error⟩ with
      | .ok _ => (st1, evs ++ [Event.progressCall], none)
      | .error e => (st1, evs ++ [Event.progressCall], some e)
  else
    let r := retry_with_backoff (fun i => _fetch_endpoint http endpoint i) max_retries (1 / 10)
    let evs := Event.breakerCheck endpoint true :: Event.acquireToken ::
      r.2.map (retryEventToEvent endpoint)
    match r.1 with
    | .ok data =>
      let st1 : AggState :=
        { successful := dinsert endpoint data st.successful
          failed := st.failed
          completed := st.completed + 1
          breaker := checked.2.record_success endpoint }
      let evs1 := evs ++ [Event.recordSuccess endpoint]
      match onProgress with
      | none => (st1, evs1, none)
      | some f =>
        match f ⟨st1.completed, total, endpoint, true, none⟩ with
        | .ok _ => (st1, evs1 ++ [Event.progressCall], none)
        | .error e1 =>
          let st2 : AggState :=
            { successful := st1.successful
              failed := dinsert endpoint e1 st1.failed
              completed := st1.completed + 1
              breaker := st1.breaker.record_failure endpoint now }
          let evs2 := evs1 ++ [Event.progressCall, Event.recordFailure endpoint]
          match f ⟨st2.completed, total, endpoint, false, some e1⟩ with
          | .ok _ => (st2, evs2 ++ [Event.progressCall], none)
          | .error e2 => (st2, evs2 ++ [Event.progressCall], some e2)
    | .error msg =>
      let st1 : AggState :=
        { successful := st.successful
          failed := dinsert endpoint msg st.failed
          completed := st.completed + 1
          breaker := checked.2.record_failure endpoint now }
      let evs1 := evs ++ [Event.recordFailure endpoint]
      match onProgress with
      | none => (st1, evs1, none)
      | some f =>
        match f ⟨st1.completed, total, endpoint, false, some msg⟩ with
        | .ok _ => (st1, evs1 ++ [Event.progressCall], none)
        | .error e => (st1, evs1 ++ [Event.progressCall], some e)

/-- The asyncio.gather fan-out over the endpoint tasks, processed in input
order.  An exception escaping a task aborts the whole fetch_all call (gather
re-raises it), so processing stops there. -/
def run_all (max_retries : ℕ) (http : String → ℕ → TransportResult) (onProgress : Progress)
    (total : ℕ) (now : ℚ) (st : AggState) :
    List String → AggState × List Event × Option String
  | [] => (st, [], none)
  | e :: rest =>
    let one := fetch_one max_retries http onProgress total now st e
    match one.2.2 with
    | some exc => (one.1, one.2.1, some exc)
    | none =>
      let later := run_all max_retries http onProgress total now one.1 rest
      (later.1, one.2.1 ++ later.2.1, later.2.2)

/-- AggregatedResult (with-mcp). -/
structure AggregatedResult where
  successful : List (String × String)
  failed : List (String × String)
  duration_seconds : ℚ
deriving DecidableEq

/-- DataAggregator.fetch_all: fan out one task per endpoint over the shared
state, fan in, and assemble the result.  Wall-clock duration is not modelled
and reported as 0.  The breaker persists on the aggregator across calls, so
the final breaker is returned alongside the result and the trace; an exception
escaping a progress callback makes the whole call raise (Except.error). -/
def fetch_all (max_retries : ℕ) (http : String → ℕ → TransportResult)
    (onProgress : Progress) (breaker : CircuitBreaker) (endpoints : List String) (now : ℚ) :
    Except String AggregatedResult × List Event × CircuitBreaker :=
  let st0 : AggState := { successful := [], failed := [], completed := 0, breaker := breaker }
  let r := run_all max_retries http onProgress endpoints.length now st0 endpoints
  match r.2.2 with
  | some exc => (.error exc, r.2.1, r.1.breaker)
  | none => (.ok ⟨r.1.successful, r.1.failed, 0⟩, r.2.1, r.1.breaker)

/-- The configuration state a constructed DataAggregator holds. -/
structure DataAggregatorState where
  rate_limiter : RateLimiter
  timeout : ℚ
  max_retries : ℕ
  breaker : CircuitBreaker

/-- DataAggregator.__init__(http_client, rate_limit, timeout, max_retries,
circuit_breaker): the source performs no validation of any argument and cannot
raise; the Except result type records the absence of a construction-time error
path.  Defaults: rate_limit 10, timeout 5.0, max_retries 3, breaker
CircuitBreaker() = init 5 30. -/
def DataAggregator.init (rate_limit : ℕ) (timeout : ℚ) (max_retries : ℕ)
    (circuit_breaker : Option CircuitBreaker) (now : ℚ) :
    Except String DataAggregatorState :=
  .ok
    { rate_limiter := RateLimiter.init rate_limit 1 now
      timeout := timeout
      max_retries := max_retries
      breaker := circuit_breaker.getD (CircuitBreaker.init 5 30) }

end WithMcp

namespace WithoutMcp

/-! ## results-without-mcp/python/test-5-result.py -/

/-- CircuitState (without-mcp): only CLOSED and OPEN. -/
inductive CircuitState where
  | CLOSED
  | OPEN
deriving DecidableEq

/-- CircuitBreaker (without-mcp): one breaker object per endpoint, held in the
aggregator's registry.  Defaults in the source: max_failures 5,
recovery_time 30.0, _failure_count 0, _state CLOSED, _last_failure_time 0. -/
structure CircuitBreaker where
  max_failures : ℕ
  recovery_time : ℚ
  _failure_count : ℕ
  _state : CircuitState
  _last_failure_time : ℚ
deriving DecidableEq

/-- CircuitBreaker(max_failures, recovery_time) with the dataclass field
defaults. -/
def CircuitBreaker.init (max_failures : ℕ) (recovery_time : ℚ) : CircuitBreaker :=
  { max_failures := max_failures
    recovery_time := recovery_time
    _failure_count := 0
    _state := .CLOSED
    _last_failure_time := 0 }

def CircuitBreaker.record_success (cb : CircuitBreaker) : CircuitBreaker :=
  { cb with _failure_count := 0, _state := .CLOSED }

/-- record_failure at instant now: bump the count, stamp the failure time, and
open once the count reaches max_failures. -/
def CircuitBreaker.record_failure (cb : CircuitBreaker) (now : ℚ) : CircuitBreaker :=
  let n := cb._failure_count + 1
  { cb with
    _failure_count := n
    _last_failure_time := now
    _state := if cb.max_failures ≤ n then .OPEN else cb._state }

/-- is_available at instant now: CLOSED passes; an OPEN breaker passes again
once recovery_time has elapsed since the last failure (there is no HALF_OPEN
state in this variant, the stored state simply stays OPEN). -/
def CircuitBreaker.is_available (cb : CircuitBreaker) (now : ℚ) : Bool :=
  if cb._state = .CLOSED then true
  else decide (cb.recovery_time ≤ now - cb._last_failure_time)

/-- The retry loop inside fetch_one: attempt is the 0-based index of the next
attempt, the ℕ argument the number of attempts remaining
(max_retries - attempt).  Each attempt acquires a rate-limiter token, invokes
the transport under the per-attempt timeout, and records success or failure on
this endpoint's breaker; between attempts (only) it sleeps 2 ^ attempt · 0.1.
Returns (result, error) as in the Python triple, the updated breaker and the
trace.  A timeout stores the reason "Timeout"; when the loop exhausts the
attempts the most recent error is returned. -/
def fetch_loop (endpoint : String) (http : ℕ → TransportResult) (now : ℚ)
    (last_error : Option String) (cb : CircuitBreaker) (attempt : ℕ) :
    ℕ → (Option String × Option String) × CircuitBreaker × List Event
  | 0 => ((none, last_error), cb, [])
  | r + 1 =>
    let pre := [Event.acquireToken, Event.transportCall endpoint attempt]
    match http attempt with
    | .ok p =>
      ((some p, none), cb.record_success, pre ++ [Event.recordSuccess endpoint])
    | .err m =>
      let cb1 := cb.record_failure now
      let evs := pre ++ [Event.recordFailure endpoint] ++
        (if r = 0 then [] else [Event.backoffSleep (2 ^ attempt * (1 / 10))])
      let rest := fetch_loop endpoint http now (some m) cb1 (attempt + 1) r
      (rest.1, rest.2.1, evs ++ rest.2.2)
    | .timeout =>
      let cb1 := cb.record_failure now
      let evs := pre ++ [Event.recordFailure endpoint] ++
        (if r = 0 then [] else [Event.backoffSleep (2 ^ attempt * (1 / 10))])
      let rest := fetch_loop endpoint http now (some "Timeout") cb1 (attempt + 1) r
      (rest.1, rest.2.1, evs ++ rest.2.2)

/-- The per-endpoint breaker registry of the aggregator. -/
abbrev Registry : Type := String → Option CircuitBreaker

/-- DataAggregator._get_circuit_breaker: look the endpoint up, creating a
fresh breaker with the aggregator's threshold and recovery configuration on
first reference (the created breaker is stored back into the registry). -/
def _get_circuit_breaker (threshold : ℕ) (recovery : ℚ) (reg : Registry) (endpoint : String) :
    CircuitBreaker × Registry :=
  match reg endpoint with
  | some cb => (cb, reg)
  | none =>
    let cb := CircuitBreaker.init threshold recovery
    (cb, upd reg endpoint cb)

/-- fetch_one (without-mcp): consult this endpoint's breaker once; if it is
unavailable return the triple (endpoint, None, "Circuit breaker open") without
acquiring a token or touching the transport, otherwise run the retry loop.
Returns the Python triple, the updated registry and the endpoint's trace. -/
def fetch_one (threshold : ℕ) (recovery : ℚ) (max_retries : ℕ)
    (http : String → ℕ → TransportResult) (reg : Registry) (now : ℚ) (endpoint : String) :
    (String × Option String × Option String) × Registry × List Event :=
  let got := _get_circuit_breaker threshold recovery reg endpoint
  let cb := got.1
  let reg1 := got.2
  if cb.is_available now then
    let r := fetch_loop endpoint (http endpoint) now none cb 0 max_retries
    ((endpoint, r.1.1, r.1.2), upd reg1 endpoint r.2.1,
      Event.breakerCheck endpoint true :: r.2.2)
  else
    ((endpoint, none, some "Circuit breaker open"), reg1,
      [Event.breakerCheck endpoint false])

/-- The asyncio.gather fan-out over fetch_one, in input order: collects the
list of per-endpoint triples. -/
def run_fetches (threshold : ℕ) (recovery : ℚ) (max_retries : ℕ)
    (http : String → ℕ → TransportResult) (now : ℚ) (reg : Registry) :
    List String → List (String × Option String × Option String) × Registry × List Event
  | [] => ([], reg, [])
  | e :: rest =>
    let one := fetch_one threshold recovery max_retries http reg now e
    let later := run_fetches threshold recovery max_retries http now one.2.1 rest
    (one.1 :: later.1, later.2.1, one.2.2 ++ later.2.2)

/-- AggregatedResult (without-mcp): a successful endpoint's stored value is
the fetched result, which the source allows to be None. -/
structure AggregatedResult where
  successful : List (String × Option String)
  failed : List (String × String)
  duration_seconds : ℚ
deriving DecidableEq

/-- The fan-in loop of fetch_all: route each triple into successful or failed
according to whether its error component is None, bump the completed counter
and invoke the progress callback, whose exception (if any) propagates and
aborts fetch_all. -/
def fan_in (onProgress : Option (ℕ → ℕ → Except String Unit)) (total : ℕ)
    (successful : List (String × Option String)) (failed : List (String × String))
    (completed : ℕ) :
    List (String × Option String × Option String) →
      Except String (List (String × Option String) × List (String × String))
  | [] => .ok (successful, failed)
  | (endpoint, result, error) :: rest =>
    let maps :=
      match error with
      | none => (dinsert endpoint result successful, failed)
      | some e => (successful, dinsert endpoint e failed)
    let completed1 := completed + 1
    match onProgress with
    | none => fan_in onProgress total maps.1 maps.2 completed1 rest
    | some f =>
      match f completed1 total with
      | .ok _ => fan_in onProgress total maps.1 maps.2 completed1 rest
      | .error e => .error e

/-- DataAggregator.fetch_all (without-mcp): run every endpoint's task, then
fan the triples in.  Wall-clock duration is not modelled and reported as 0;
the registry persists on the aggregator across calls and is returned. -/
def fetch_all (threshold : ℕ) (recovery : ℚ) (max_retries : ℕ)
    (http : String → ℕ → TransportResult)
    (onProgress : Option (ℕ → ℕ → Except String Unit)) (reg : Registry)
    (endpoints : List String) (now : ℚ) :
    Except String AggregatedResult × List Event × Registry :=
  let r := run_fetches threshold recovery max_retries http now reg endpoints
  match fan_in onProgress endpoints.length [] [] 0 r.1 with
  | .ok maps => (.ok ⟨maps.1, maps.2, 0⟩, r.2.2, r.2.1)
  | .error e => (.error e, r.2.2, r.2.1)

/-- The configuration state a constructed DataAggregator holds. -/
structure DataAggregatorState where
  max_requests_per_second : ℕ
  max_retries : ℕ
  timeout_seconds : ℚ
  cb_threshold : ℕ
  cb_recovery : ℚ

/-- DataAggregator.__init__ (without-mcp): stores the five configuration
values; no validation is performed and nothing can raise, which the Except
result type records.  Defaults: 10, 3, 5.0, 5, 30.0. -/
def DataAggregator.init (max_requests_per_second : ℕ) (max_retries : ℕ)
    (timeout_seconds : ℚ) (circuit_breaker_threshold : ℕ)
    (circuit_breaker_recovery : ℚ) : Except String DataAggregatorState :=
  .ok
    { max_requests_per_second := max_requests_per_second
      max_retries := max_retries
      timeout_seconds := timeout_seconds
      cb_threshold := circuit_breaker_threshold
      cb_recovery := circuit_breaker_recovery }

end WithoutMcp

/-! ## Transport behaviours and progress callbacks used by concrete runs -/

/-- A transport that always answers with the payload "data". -/
def httpAlwaysOk : String → ℕ → TransportResult := fun _ _ => .ok "data"

/-- A transport that always raises an exception with message "boom". -/
def httpAlwaysErr : String → ℕ → TransportResult := fun _ _ => .err "boom"

/-- A transport that always exceeds the per-attempt timeout. -/
def httpAlwaysTimeout : String → ℕ → TransportResult := fun _ _ => .timeout

/-- A transport whose first attempt fails and whose second succeeds. -/
def httpFailThenOk : String → ℕ → TransportResult :=
  fun _ i => if i = 0 then .err "transient" else .ok "payload"

/-- A with-mcp progress callback that always raises. -/
def raisingProgress : WithMcp.Progress := some fun _ => .error "cbfail"

/-- A with-mcp progress callback that raises exactly on calls reporting a
success (so: on the first, success-path, invocation for a successful endpoint,
but not on the second, failure-path, invocation the except-block makes). -/
def raiseOnSuccessProgress : WithMcp.Progress :=
  some fun info => if info.success then .error "cbboom" else .ok ()

/-- The with-mcp progress callback never raises (or is absent). -/
def progressOk (p : WithMcp.Progress) : Prop :=
  ∀ f, p = some f → ∀ i, f i = Except.ok ()

/-- The without-mcp progress callback never raises (or is absent). -/
def progressOk2 (p : Option (ℕ → ℕ → Except String Unit)) : Prop :=
  ∀ f, p = some f → ∀ c t, f c t = Except.ok ()

/-! ## Helper lemmas: counters, dicts -/

theorem countEv_append (p : Event → Bool) (xs ys : List Event) :
    countEv p (xs ++ ys) = countEv p xs + countEv p ys := by
  induction xs with
  | nil => simp [countEv]
  | cons x xs ih => simp [countEv, ih]; omega

theorem keysOf_nil {β : Type} : keysOf ([] : List (String × β)) = [] := rfl

theorem keysOf_cons {β : Type} (x : String × β) (d : List (String × β)) :
    keysOf (x :: d) = x.1 :: keysOf d := rfl

theorem keysOf_dinsert_not_mem {β : Type} (k : String) (v : β) (d : List (String × β))
    (h : k ∉ keysOf d) : keysOf (dinsert k v d) = keysOf d ++ [k] := by
  induction d with
  | nil => simp [dinsert, keysOf]
  | cons x d ih =>
    rw [keysOf_cons] at h
    have hx : x.1 ≠ k := fun hh => h (hh ▸ List.mem_cons_self _ _)
    have hd : k ∉ keysOf d := fun hh => h (List.mem_cons_of_mem _ hh)
    simp [dinsert, hx, keysOf_cons, ih hd]

theorem mem_keysOf_dinsert {β : Type} (k x : String) (v : β) (d : List (String × β)) :
    x ∈ keysOf (dinsert k v d) ↔ x ∈ keysOf d ∨ x = k := by
  induction d with
  | nil => simp [dinsert, keysOf]
  | cons y d ih =>
    by_cases hy : y.1 = k
    · simp [dinsert, hy, keysOf_cons, List.mem_cons]
      tauto
    · simp [dinsert, hy, keysOf_cons, List.mem_cons, ih]
      tauto

theorem countEv_map_retryEvent (p : Event → Bool) (e : String) (b : ℕ)
    (hcall : ∀ i, (if p (Event.transportCall e i) then 1 else 0) = b)
    (hsleep : ∀ s, p (Event.backoffSleep s) = false) (evs : List WithMcp.RetryEvent) :
    countEv p (evs.map (WithMcp.retryEventToEvent e)) = b * WithMcp.retryCallCount evs := by
  induction evs with
  | nil => simp [countEv, WithMcp.retryCallCount]
  | cons x evs ih =>
    cases x with
    | call i =>
      simp [countEv, WithMcp.retryEventToEvent, WithMcp.retryCallCount, hcall i, ih]
      ring
    | sleep s =>
      simp [countEv, WithMcp.retryEventToEvent, WithMcp.retryCallCount, hsleep s, ih]

theorem transportCount_map_retry (e : String) (evs : List WithMcp.RetryEvent) :
    transportCount (evs.map (WithMcp.retryEventToEvent e)) = WithMcp.retryCallCount evs := by
  simpa [transportCount] using
    countEv_map_retryEvent isTransport e 1 (fun _ => rfl) (fun _ => rfl) evs

theorem acquireCount_map_retry (e : String) (evs : List WithMcp.RetryEvent) :
    acquireCount (evs.map (WithMcp.retryEventToEvent e)) = 0 := by
  simpa [acquireCount] using
    countEv_map_retryEvent isAcquire e 0 (fun _ => rfl) (fun _ => rfl) evs

theorem breakerCheckCount_map_retry (e : String) (evs : List WithMcp.RetryEvent) :
    breakerCheckCount (evs.map (WithMcp.retryEventToEvent e)) = 0 := by
  simpa [breakerCheckCount] using
    countEv_map_retryEvent isBreakerCheck e 0 (fun _ => rfl) (fun _ => rfl) evs

theorem recordSuccessCount_map_retry (e : String) (evs : List WithMcp.RetryEvent) :
    recordSuccessCount (evs.map (WithMcp.retryEventToEvent e)) = 0 := by
  simpa [recordSuccessCount] using
    countEv_map_retryEvent isRecordSuccess e 0 (fun _ => rfl) (fun _ => rfl) evs

theorem recordFailureCount_map_retry (e : String) (evs : List WithMcp.RetryEvent) :
    recordFailureCount (evs.map (WithMcp.retryEventToEvent e)) = 0 := by
  simpa [recordFailureCount] using
    countEv_map_retryEvent isRecordFailure e 0 (fun _ => rfl) (fun _ => rfl) evs

/-! ## Helper lemmas: the with-mcp retry executor -/

theorem retryAux_count_le {α : Type} (func : ℕ → Except String α) (d : ℚ) :
    ∀ r a, WithMcp.retryCallCount (WithMcp.retryAux func d a r).2 ≤ r := by
  intro r
  induction r with
  | zero => intro a; simp [WithMcp.retryAux, WithMcp.retryCallCount]
  | succ r ih =>
    intro a
    cases hfa : func a with
    | ok v => simp [WithMcp.retryAux, hfa, WithMcp.retryCallCount]
    | error e =>
      by_cases hr : r = 0
      · subst hr; simp [WithMcp.retryAux, hfa, WithMcp.retryCallCount]
      · have := ih (a + 1)
        simp [WithMcp.retryAux, hfa, hr, WithMcp.retryCallCount]
        omega

theorem retryAux_all_fail {α : Type} (func : ℕ → Except String α) (d : ℚ) :
    ∀ r a, (∀ i, a ≤ i → i < a + (r + 1) → (func i).isOk = false) →
      (WithMcp.retryAux func d a (r + 1)).1 = func (a + r) ∧
      WithMcp.retryCallCount (WithMcp.retryAux func d a (r + 1)).2 = r + 1 ∧
      WithMcp.retrySleeps (WithMcp.retryAux func d a (r + 1)).2 =
        (List.range r).map (fun i => d * 2 ^ (a + i)) ∧
      (WithMcp.retryAux func d a (r + 1)).2.getLast? =
        some (WithMcp.RetryEvent.call (a + r)) := by
  intro r
  induction r with
  | zero =>
    intro a h
    cases hfa : func a with
    | ok v =>
      have := h a le_rfl (by omega)
      rw [hfa] at this
      simp [Except.isOk, Except.toBool] at this
    | error e =>
      refine ⟨?_, ?_, ?_, ?_⟩ <;>
        simp [WithMcp.retryAux, hfa, WithMcp.retryCallCount, WithMcp.retrySleeps]
  | succ r ih =>
    intro a h
    cases hfa : func a with
    | ok v =>
      have := h a le_rfl (by omega)
      rw [hfa] at this
      simp [Except.isOk, Except.toBool] at this
    | error e =>
      have hrec := ih (a + 1) (fun i hi hi2 => h i (by omega) (by omega))
      have hne : r + 1 ≠ 0 := by omega
      have hrw : (WithMcp.retryAux func d a (r + 1 + 1)) =
          ((WithMcp.retryAux func d (a + 1) (r + 1)).1,
            WithMcp.RetryEvent.call a ::
              WithMcp.RetryEvent.sleep (d * 2 ^ a) ::
                (WithMcp.retryAux func d (a + 1) (r + 1)).2) := by
        simp [WithMcp.retryAux, hfa, hne]
      refine ⟨?_, ?_, ?_, ?_⟩
      · rw [hrw]
        have := hrec.1
        simpa [show a + 1 + r = a + (r + 1) by omega] using this
      · rw [hrw]
        simp only [WithMcp.retryCallCount]
        rw [hrec.2.1]
      · rw [hrw]
        simp only [WithMcp.retrySleeps]
        rw [hrec.2.2.1, List.range_succ_eq_map, List.map_cons, List.map_map]
        refine congrArg₂ _ (by ring) ?_
        apply List.map_congr_left
        intro i _
        simp only [Function.comp_apply, Nat.succ_eq_add_one]
        rw [show a + 1 + i = a + (i + 1) from by omega]
      · rw [hrw]
        have hlast := hrec.2.2.2
        cases hev : (WithMcp.retryAux func d (a + 1) (r + 1)).2 with
        | nil => rw [hev] at hlast; simp at hlast
        | cons y ys =>
          rw [hev] at hlast
          rw [List.getLast?_cons_cons, List.getLast?_cons_cons, hlast]
          exact congrArg _ (congrArg _ (by omega))

theorem retryAux_succeeds {α : Type} (func : ℕ → Except String α) (d : ℚ) (v : α) :
    ∀ k r a, k < r → (∀ i, a ≤ i → i < a + k → (func i).isOk = false) →
      func (a + k) = .ok v →
      (WithMcp.retryAux func d a r).1 = .ok v ∧
      WithMcp.retryCallCount (WithMcp.retryAux func d a r).2 = k + 1 ∧
      WithMcp.retrySleeps (WithMcp.retryAux func d a r).2 =
        (List.range k).map (fun i => d * 2 ^ (a + i)) ∧
      (WithMcp.retryAux func d a r).2.getLast? =
        some (WithMcp.RetryEvent.call (a + k)) := by
  intro k
  induction k with
  | zero =>
    intro r a hkr h hok
    rw [Nat.add_zero] at hok
    cases r with
    | zero => omega
    | succ r =>
      refine ⟨?_, ?_, ?_, ?_⟩ <;>
        simp [WithMcp.retryAux, hok, WithMcp.retryCallCount, WithMcp.retrySleeps]
  | succ k ih =>
    intro r a hkr h hok
    cases r with
    | zero => omega
    | succ r =>
      cases hfa : func a with
      | ok w =>
        have := h a le_rfl (by omega)
        rw [hfa] at this
        simp [Except.isOk, Except.toBool] at this
      | error e =>
        have hne : r ≠ 0 := by omega
        have hrec := ih r (a + 1) (by omega)
          (fun i hi hi2 => h i (by omega) (by omega))
          (by rw [show a + 1 + k = a + (k + 1) by omega]; exact hok)
        have hrw : (WithMcp.retryAux func d a (r + 1)) =
            ((WithMcp.retryAux func d (a + 1) r).1,
              WithMcp.RetryEvent.call a ::
                WithMcp.RetryEvent.sleep (d * 2 ^ a) ::
                  (WithMcp.retryAux func d (a + 1) r).2) := by
          simp [WithMcp.retryAux, hfa, hne]
        refine ⟨?_, ?_, ?_, ?_⟩
        · rw [hrw]; exact hrec.1
        · rw [hrw]
          simp only [WithMcp.retryCallCount]
          rw [hrec.2.1]
        · rw [hrw]
          simp only [WithMcp.retrySleeps]
          rw [hrec.2.2.1, List.range_succ_eq_map, List.map_cons, List.map_map]
          refine congrArg₂ _ (by ring) ?_
          apply List.map_congr_left
          intro i _
          simp only [Function.comp_apply, Nat.succ_eq_add_one]
          rw [show a + 1 + i = a + (i + 1) from by omega]
        · rw [hrw]
          have hlast := hrec.2.2.2
          cases hev : (WithMcp.retryAux func d (a + 1) r).2 with
          | nil => rw [hev] at hlast; simp at hlast
          | cons y ys =>
            rw [hev] at hlast
            rw [List.getLast?_cons_cons, List.getLast?_cons_cons, hlast]
            exact congrArg _ (congrArg _ (by omega))

/-- Except values with decidable component equality have decidable equality
(needed to evaluate concrete runs by decide). -/
instance {ε α : Type} [DecidableEq ε] [DecidableEq α] : DecidableEq (Except ε α) := fun x y =>
  match x, y with
  | .ok a, .ok b => if h : a = b then .isTrue (by rw [h]) else .isFalse (by simp [h])
  | .error a, .error b => if h : a = b then .isTrue (by rw [h]) else .isFalse (by simp [h])
  | .ok _, .error _ => .isFalse (by simp)
  | .error _, .ok _ => .isFalse (by simp)

/-! ## Claim C6: the retry executor -/

/-- C6: retry_with_backoff, given maxAttempts ≥ 1 and a base delay, invokes
the attempt function at most maxAttempts times; if every attempt fails it
surfaces the most recent failure after exactly maxAttempts invocations, having
slept base · 2^attemptIndex between consecutive attempts and nothing after the
last one (the last trace event is an invocation, not a sleep); the first
success short-circuits all further attempts; and with maxAttempts = 3 and an
attempt function failing exactly twice then succeeding, the result is that
success and the attempt function is invoked exactly 3 times. -/
theorem retry_with_backoff_spec {α : Type} (func : ℕ → Except String α) (m : ℕ) (d : ℚ)
    (v0 : α) (hm : 1 ≤ m) :
    WithMcp.retryCallCount (WithMcp.retry_with_backoff func m d).2 ≤ m ∧
    ((∀ i, i < m → (func i).isOk = false) →
      (WithMcp.retry_with_backoff func m d).1 = func (m - 1) ∧
      WithMcp.retryCallCount (WithMcp.retry_with_backoff func m d).2 = m ∧
      WithMcp.retrySleeps (WithMcp.retry_with_backoff func m d).2 =
        (List.range (m - 1)).map (fun i => d * 2 ^ i) ∧
      (WithMcp.retry_with_backoff func m d).2.getLast? =
        some (WithMcp.RetryEvent.call (m - 1))) ∧
    (∀ k v, k < m → (∀ i, i < k → (func i).isOk = false) → func k = .ok v →
      (WithMcp.retry_with_backoff func m d).1 = .ok v ∧
      WithMcp.retryCallCount (WithMcp.retry_with_backoff func m d).2 = k + 1 ∧
      WithMcp.retrySleeps (WithMcp.retry_with_backoff func m d).2 =
        (List.range k).map (fun i => d * 2 ^ i) ∧
      (WithMcp.retry_with_backoff func m d).2.getLast? =
        some (WithMcp.RetryEvent.call k)) ∧
    ((WithMcp.retry_with_backoff
        (fun i => if i < 2 then Except.error "transient" else Except.ok v0) 3 d).1 =
      Except.ok v0 ∧
      WithMcp.retryCallCount (WithMcp.retry_with_backoff
        (fun i => if i < 2 then Except.error "transient" else Except.ok v0) 3 d).2 = 3) := by
  obtain ⟨r, rfl⟩ : ∃ r, m = r + 1 := ⟨m - 1, by omega⟩
  refine ⟨retryAux_count_le func d (r + 1) 0, ?_, ?_, ?_⟩
  · intro h
    have ha := retryAux_all_fail func d r 0 (fun i _ hi => h i (by omega))
    refine ⟨by simpa using ha.1, ha.2.1, ?_, by simpa using ha.2.2.2⟩
    rw [show r + 1 - 1 = r from by omega]
    unfold WithMcp.retry_with_backoff
    rw [ha.2.2.1]
    exact List.map_congr_left fun i _ => by rw [Nat.zero_add]
  · intro k v hk hfails hok
    have hs := retryAux_succeeds func d v k (r + 1) 0 hk
      (fun i _ hi => hfails i (by omega)) (by simpa using hok)
    refine ⟨hs.1, hs.2.1, ?_, by simpa using hs.2.2.2⟩
    unfold WithMcp.retry_with_backoff
    rw [hs.2.2.1]
    exact List.map_congr_left fun i _ => by rw [Nat.zero_add]
  · have hs := retryAux_succeeds
      (fun i => if i < 2 then Except.error "transient" else Except.ok v0) d v0 2 3 0
      (by omega)
      (fun i _ hi => by
        have h2 : i < 2 := by omega
        simp [h2, Except.isOk, Except.toBool])
      (by simp)
    exact ⟨hs.1, hs.2.1⟩

/-- Witness for retry_with_backoff_spec at concrete inputs: an attempt
function that always fails, two attempts: the most recent failure surfaces
after exactly two invocations. -/
theorem retry_with_backoff_spec_witness :
    (WithMcp.retry_with_backoff (fun _ => (Except.error "boom" : Except String ℕ)) 2
      (1 / 10)).1 = Except.error "boom" ∧
    WithMcp.retryCallCount (WithMcp.retry_with_backoff
      (fun _ => (Except.error "boom" : Except String ℕ)) 2 (1 / 10)).2 = 2 := by
  have h := retry_with_backoff_spec (fun _ => (Except.error "boom" : Except String ℕ))
    2 (1 / 10) 0 (by omega)
  have h2 := h.2.1 (fun i _ => rfl)
  exact ⟨h2.1, h2.2.1⟩

/-! ## Claim C9: the rate limiter token bucket -/

/-- C9 (refuting the stored-count invariant): with max_requests = 1 and
time_window = 1, consuming the initial token at t = 0 and acquiring again at
t = 1/2 makes the code admit the call with only half a token available (the
wait loop exits as soon as the count is strictly positive, not ≥ 1) and store
a negative token count of -1/2. -/
theorem rate_limiter_negative_tokens_bug :
    ((WithMcp.RateLimiter.init 1 1 0).acquire 0 2).1._tokens = 0 ∧
    (((WithMcp.RateLimiter.init 1 1 0).acquire 0 2).1.acquire (1 / 2) 2).1._tokens = -(1 / 2) ∧
    (((WithMcp.RateLimiter.init 1 1 0).acquire 0 2).1.acquire (1 / 2) 2).1._tokens < 0 := by
  refine ⟨?_, ?_, ?_⟩ <;>
    norm_num [WithMcp.RateLimiter.init, WithMcp.RateLimiter.acquire,
      WithMcp.RateLimiter._wait_for_token, WithMcp.RateLimiter._refill]

/-! ## Claim C10: construction-time validation -/

/-- C10 (counterexample): constructing either variant's aggregator with a
rate of 0 and/or 0 maximum retry attempts (both non-positive values) succeeds;
no error is raised at construction time. -/
theorem init_accepts_nonpositive_config :
    (WithMcp.DataAggregator.init 0 5 0 none 0).isOk = true ∧
    (WithoutMcp.DataAggregator.init 0 0 5 5 30).isOk = true := ⟨rfl, rfl⟩

/-- C10 (amended): constructing an orchestrator never raises, whatever the
configuration values — neither variant's constructor performs any validation,
so a non-positive rate or retry budget is only felt at call time. -/
theorem init_never_fails (rate_limit : ℕ) (timeout : ℚ) (max_retries : ℕ)
    (cb : Option WithMcp.CircuitBreaker) (now : ℚ)
    (mrps mr2 th : ℕ) (ts rcv : ℚ) :
    (WithMcp.DataAggregator.init rate_limit timeout max_retries cb now).isOk = true ∧
    (WithoutMcp.DataAggregator.init mrps mr2 ts th rcv).isOk = true := ⟨rfl, rfl⟩

/-! ## Concrete counterexample runs for C1, C2, C3, C5, C8 -/

/-- C1 (counterexample): with the duplicate endpoint list ["a", "a"] both
variants return one successful entry and no failed one, so
|successful| + |failed| = 1 ≠ 2 = |endpoints|; and in the with-mcp variant a
progress callback that raises on its success-path invocation puts the same
endpoint into both maps, so the two key sets are not disjoint. -/
theorem fetch_all_partition_counterexample :
    ((WithMcp.fetch_all 1 httpAlwaysOk none (WithMcp.CircuitBreaker.init 5 30)
        ["a", "a"] 0).1 = Except.ok ⟨[("a", "data")], [], 0⟩ ∧
      1 + 0 ≠ (["a", "a"] : List String).length) ∧
    ((WithoutMcp.fetch_all 5 30 1 httpAlwaysOk none (fun _ => none) ["a", "a"] 0).1 =
      Except.ok ⟨[("a", some "data")], [], 0⟩) ∧
    ((WithMcp.fetch_all 1 httpAlwaysOk raiseOnSuccessProgress
        (WithMcp.CircuitBreaker.init 5 30) ["a"] 0).1 =
      Except.ok ⟨[("a", "data")], [("a", "cbboom")], 0⟩ ∧
      "a" ∈ keysOf [("a", "data")] ∧ "a" ∈ keysOf [("a", "cbboom")]) := by
  decide

/-- C2 (counterexample): in the with-mcp variant a fetch of one endpoint with
max_retries = 2 and a transport that always fails invokes the transport twice
but acquires only one rate-limiter token — the second retry attempt calls the
transport without re-acquiring, so its trace violates the token discipline. -/
theorem token_per_attempt_counterexample :
    transportCount (WithMcp.fetch_one 2 httpAlwaysErr none 1 0
      ⟨[], [], 0, WithMcp.CircuitBreaker.init 5 30⟩ "a").2.1 = 2 ∧
    acquireCount (WithMcp.fetch_one 2 httpAlwaysErr none 1 0
      ⟨[], [], 0, WithMcp.CircuitBreaker.init 5 30⟩ "a").2.1 = 1 ∧
    tokenBalanceOk 0 (WithMcp.fetch_one 2 httpAlwaysErr none 1 0
      ⟨[], [], 0, WithMcp.CircuitBreaker.init 5 30⟩ "a").2.1 = false := by
  decide

/-- C3 (counterexample): in the without-mcp variant a fetch whose first
attempt fails and whose second succeeds ends in success yet records one
breaker failure (and one success) — the failed attempt inside an eventually
successful sequence does not record nothing. -/
theorem per_attempt_recording_counterexample :
    (WithoutMcp.fetch_one 5 30 2 httpFailThenOk (fun _ => none) 0 "a").1 =
      ("a", some "payload", none) ∧
    recordFailureCount
      (WithoutMcp.fetch_one 5 30 2 httpFailThenOk (fun _ => none) 0 "a").2.2 = 1 ∧
    recordSuccessCount
      (WithoutMcp.fetch_one 5 30 2 httpFailThenOk (fun _ => none) 0 "a").2.2 = 1 := by
  decide

/-- C5 (counterexample): in the with-mcp variant a single endpoint whose
transport always exceeds the per-attempt timeout ends as a failure whose
recorded reason is the empty string — str(asyncio.TimeoutError()) — not
"timeout" (nor the without-mcp variant's "Timeout"). -/
theorem timeout_reason_counterexample :
    (WithMcp.fetch_all 1 httpAlwaysTimeout none (WithMcp.CircuitBreaker.init 5 30)
      ["a"] 0).1 = Except.ok ⟨[], [("a", "")], 0⟩ ∧
    ("" : String) ≠ "timeout" ∧ ("" : String) ≠ "Timeout" := by
  decide

/-- C8 (counterexample): a progress callback that raises aborts fetch_all in
both variants — the callback's exception propagates to the caller instead of
being ignored. -/
theorem callback_exception_aborts_counterexample :
    (WithMcp.fetch_all 1 httpAlwaysOk raisingProgress (WithMcp.CircuitBreaker.init 5 30)
      ["a", "b"] 0).1 = Except.error "cbfail" ∧
    (WithoutMcp.fetch_all 5 30 1 httpAlwaysOk (some fun _ _ => Except.error "cbfail")
      (fun _ => none) ["a", "b"] 0).1 = Except.error "cbfail" := by
  decide

/-! ## Claim C7: circuit breaker lifecycle (with-mcp) -/

/-- k consecutive record_failure calls for endpoint e, all stamped at
instant t. -/
def failTimes (cb : WithMcp.CircuitBreaker) (e : String) (t : ℚ) : ℕ → WithMcp.CircuitBreaker
  | 0 => cb
  | k + 1 => (failTimes cb e t k).record_failure e t

theorem failTimes_below_threshold (N : ℕ) (R t : ℚ) (e : String) :
    ∀ k, k < N →
      (failTimes (WithMcp.CircuitBreaker.init N R) e t k)._failure_counts e =
        (if k = 0 then none else some k) ∧
      (failTimes (WithMcp.CircuitBreaker.init N R) e t k)._states e = none ∧
      (failTimes (WithMcp.CircuitBreaker.init N R) e t k)._open_times e = none ∧
      (failTimes (WithMcp.CircuitBreaker.init N R) e t k).failure_threshold = N ∧
      (failTimes (WithMcp.CircuitBreaker.init N R) e t k).recovery_timeout = R := by
  intro k
  induction k with
  | zero =>
    intro _
    simp [failTimes, WithMcp.CircuitBreaker.init]
  | succ k ih =>
    intro hk
    have ihk := ih (by omega)
    have hcount :
        ((failTimes (WithMcp.CircuitBreaker.init N R) e t k)._failure_counts e).getD 0 = k := by
      rw [ihk.1]; cases k <;> simp
    have hle : ¬ (failTimes (WithMcp.CircuitBreaker.init N R) e t k).failure_threshold ≤ k + 1 := by
      rw [ihk.2.2.2.1]; omega
    have hle2 : ¬ (N ≤ k + 1) := by omega
    simp [failTimes, WithMcp.CircuitBreaker.record_failure, hcount, hle, hle2, upd,
      ihk.2.1, ihk.2.2.1, ihk.2.2.2.1, ihk.2.2.2.2]

theorem failTimes_at_threshold (N : ℕ) (R t : ℚ) (e : String) (hN : 1 ≤ N) :
    (failTimes (WithMcp.CircuitBreaker.init N R) e t N)._states e =
      some WithMcp.CircuitState.OPEN ∧
    (failTimes (WithMcp.CircuitBreaker.init N R) e t N)._open_times e = some t ∧
    (failTimes (WithMcp.CircuitBreaker.init N R) e t N)._failure_counts e = some N ∧
    (failTimes (WithMcp.CircuitBreaker.init N R) e t N).failure_threshold = N ∧
    (failTimes (WithMcp.CircuitBreaker.init N R) e t N).recovery_timeout = R := by
  obtain ⟨m, rfl⟩ : ∃ m, N = m + 1 := ⟨N - 1, by omega⟩
  have ihk := failTimes_below_threshold (m + 1) R t e m (by omega)
  have hcount :
      ((failTimes (WithMcp.CircuitBreaker.init (m + 1) R) e t m)._failure_counts e).getD 0
        = m := by
    rw [ihk.1]; cases m <;> simp
  have hle : (failTimes (WithMcp.CircuitBreaker.init (m + 1) R) e t m).failure_threshold
      ≤ m + 1 := by
    rw [ihk.2.2.2.1]
  have hle2 : m + 1 ≤ m + 1 := le_rfl
  simp [failTimes, WithMcp.CircuitBreaker.record_failure, hcount, hle, hle2, upd,
    ihk.2.2.2.1, ihk.2.2.2.2]

/-- C7: a circuit breaker with failureThreshold = N reports an endpoint
available after each of the first N−1 consecutive recorded failures and
unavailable immediately upon the N-th; once open, it reports HALF_OPEN (and is
available again) as soon as now − openedAt ≥ recoveryTimeout; and a subsequent
record_success resets the endpoint's failure count to 0 and its state to
CLOSED, making it available at any instant. -/
theorem circuit_breaker_lifecycle (N : ℕ) (R t t' u : ℚ) (e : String)
    (hN : 1 ≤ N) (hR : 0 < R) (hrec : R ≤ t' - t) :
    (∀ k, k < N → ∀ s : ℚ,
      ((failTimes (WithMcp.CircuitBreaker.init N R) e t k).is_open e s).1 = false) ∧
    ((failTimes (WithMcp.CircuitBreaker.init N R) e t N).is_open e t).1 = true ∧
    ((failTimes (WithMcp.CircuitBreaker.init N R) e t N).get_state e t').1 =
      WithMcp.CircuitState.HALF_OPEN ∧
    ((failTimes (WithMcp.CircuitBreaker.init N R) e t N).is_open e t').1 = false ∧
    ((failTimes (WithMcp.CircuitBreaker.init N R) e t N).record_success e)._failure_counts e
      = some 0 ∧
    ((failTimes (WithMcp.CircuitBreaker.init N R) e t N).record_success e)._states e
      = some WithMcp.CircuitState.CLOSED ∧
    (((failTimes (WithMcp.CircuitBreaker.init N R) e t N).record_success e).is_open e u).1
      = false := by
  have hth := failTimes_at_threshold N R t e hN
  have hnotyet : ¬ (failTimes (WithMcp.CircuitBreaker.init N R) e t N).recovery_timeout
      ≤ t - ((failTimes (WithMcp.CircuitBreaker.init N R) e t N)._open_times e).getD 0 := by
    rw [hth.2.2.2.2, hth.2.1]
    simp
    linarith
  have hpast : (failTimes (WithMcp.CircuitBreaker.init N R) e t N).recovery_timeout
      ≤ t' - ((failTimes (WithMcp.CircuitBreaker.init N R) e t N)._open_times e).getD 0 := by
    rw [hth.2.2.2.2, hth.2.1]
    simpa using hrec
  refine ⟨?_, ?_, ?_, ?_, ?_, ?_, ?_⟩
  · intro k hk s
    have h := failTimes_below_threshold N R t e k hk
    simp [WithMcp.CircuitBreaker.is_open, WithMcp.CircuitBreaker.get_state, h.2.1]
  · simp [WithMcp.CircuitBreaker.is_open, WithMcp.CircuitBreaker.get_state, hth.1, hnotyet]
  · simp [WithMcp.CircuitBreaker.get_state, hth.1, hpast]
  · simp [WithMcp.CircuitBreaker.is_open, WithMcp.CircuitBreaker.get_state, hth.1, hpast]
  · simp [WithMcp.CircuitBreaker.record_success, upd]
  · simp [WithMcp.CircuitBreaker.record_success, upd]
  · simp [WithMcp.CircuitBreaker.is_open, WithMcp.CircuitBreaker.get_state,
      WithMcp.CircuitBreaker.record_success, upd]

/-- Witness for circuit_breaker_lifecycle: threshold 2, recovery 30, failures
at t = 0, recovery consulted at t = 30. -/
theorem circuit_breaker_lifecycle_witness :
    ((failTimes (WithMcp.CircuitBreaker.init 2 30) "a" 0 1).is_open "a" 5).1 = false ∧
    ((failTimes (WithMcp.CircuitBreaker.init 2 30) "a" 0 2).is_open "a" 0).1 = true ∧
    ((failTimes (WithMcp.CircuitBreaker.init 2 30) "a" 0 2).get_state "a" 30).1 =
      WithMcp.CircuitState.HALF_OPEN ∧
    ((failTimes (WithMcp.CircuitBreaker.init 2 30) "a" 0 2).record_success "a")._failure_counts
      "a" = some 0 := by
  have h := circuit_breaker_lifecycle 2 30 0 30 7 "a" (by omega) (by norm_num) (by norm_num)
  exact ⟨h.1 1 (by omega) 5, h.2.1, h.2.2.1, h.2.2.2.2.1⟩

/-! ## Trace lemmas for the without-mcp retry loop -/

/-- A transport outcome that the retry loop treats as a failed attempt. -/
def isFailTR : TransportResult → Bool
  | .ok _ => false
  | .err _ => true
  | .timeout => true

theorem countEv_isAcquire_map_retry (e : String) (evs : List WithMcp.RetryEvent) :
    countEv isAcquire (evs.map (WithMcp.retryEventToEvent e)) = 0 := by
  simpa using countEv_map_retryEvent isAcquire e 0 (fun _ => rfl) (fun _ => rfl) evs

theorem countEv_isTransport_map_retry (e : String) (evs : List WithMcp.RetryEvent) :
    countEv isTransport (evs.map (WithMcp.retryEventToEvent e)) =
      WithMcp.retryCallCount evs := by
  simpa using countEv_map_retryEvent isTransport e 1 (fun _ => rfl) (fun _ => rfl) evs

theorem countEv_isBreakerCheck_map_retry (e : String) (evs : List WithMcp.RetryEvent) :
    countEv isBreakerCheck (evs.map (WithMcp.retryEventToEvent e)) = 0 := by
  simpa using countEv_map_retryEvent isBreakerCheck e 0 (fun _ => rfl) (fun _ => rfl) evs

theorem countEv_isRecordSuccess_map_retry (e : String) (evs : List WithMcp.RetryEvent) :
    countEv isRecordSuccess (evs.map (WithMcp.retryEventToEvent e)) = 0 := by
  simpa using countEv_map_retryEvent isRecordSuccess e 0 (fun _ => rfl) (fun _ => rfl) evs

theorem countEv_isRecordFailure_map_retry (e : String) (evs : List WithMcp.RetryEvent) :
    countEv isRecordFailure (evs.map (WithMcp.retryEventToEvent e)) = 0 := by
  simpa using countEv_map_retryEvent isRecordFailure e 0 (fun _ => rfl) (fun _ => rfl) evs

theorem fetch_loop_trace_discipline (e : String) (http : ℕ → TransportResult) (now : ℚ) :
    ∀ r last cb a,
      tokenBalanceOk 0 (WithoutMcp.fetch_loop e http now last cb a r).2.2 = true ∧
      countEv isAcquire (WithoutMcp.fetch_loop e http now last cb a r).2.2 =
        countEv isTransport (WithoutMcp.fetch_loop e http now last cb a r).2.2 ∧
      countEv isBreakerCheck (WithoutMcp.fetch_loop e http now last cb a r).2.2 = 0 := by
  intro r
  induction r with
  | zero =>
    intro last cb a
    simp [WithoutMcp.fetch_loop, tokenBalanceOk, countEv]
  | succ r ih =>
    intro last cb a
    cases hfa : http a with
    | ok p =>
      simp [WithoutMcp.fetch_loop, hfa, tokenBalanceOk, countEv,
        isAcquire, isTransport, isBreakerCheck]
    | err m =>
      have ihr := ih (some m) (cb.record_failure now) (a + 1)
      by_cases hr0 : r = 0 <;>
        simp [WithoutMcp.fetch_loop, hfa, hr0, tokenBalanceOk, countEv,
          isAcquire, isTransport, isBreakerCheck, ihr.1, ihr.2.1, ihr.2.2]
    | timeout =>
      have ihr := ih (some "Timeout") (cb.record_failure now) (a + 1)
      by_cases hr0 : r = 0 <;>
        simp [WithoutMcp.fetch_loop, hfa, hr0, tokenBalanceOk, countEv,
          isAcquire, isTransport, isBreakerCheck, ihr.1, ihr.2.1, ihr.2.2]

theorem fetch_loop_all_timeout (e : String) (http : ℕ → TransportResult) (now : ℚ)
    (hto : ∀ i, http i = .timeout) :
    ∀ r last cb a, 1 ≤ r →
      (WithoutMcp.fetch_loop e http now last cb a r).1 = (none, some "Timeout") ∧
      countEv isTransport (WithoutMcp.fetch_loop e http now last cb a r).2.2 = r := by
  intro r
  induction r with
  | zero => intro last cb a h; omega
  | succ r ih =>
    intro last cb a _
    by_cases hr0 : r = 0
    · subst hr0
      simp [WithoutMcp.fetch_loop, hto a, countEv, isTransport]
    · have ihr := ih (some "Timeout") (cb.record_failure now) (a + 1) (by omega)
      simp [WithoutMcp.fetch_loop, hto a, hr0, countEv, isTransport, isAcquire,
        ihr.1, ihr.2]
      omega

theorem fetch_loop_fail_then_ok (e : String) (http : ℕ → TransportResult) (now : ℚ)
    (p : String) :
    ∀ k r a last cb, k < r →
      (∀ i, i < k → isFailTR (http (a + i)) = true) → http (a + k) = .ok p →
      (WithoutMcp.fetch_loop e http now last cb a r).1 = (some p, none) ∧
      countEv isRecordFailure (WithoutMcp.fetch_loop e http now last cb a r).2.2 = k ∧
      countEv isRecordSuccess (WithoutMcp.fetch_loop e http now last cb a r).2.2 = 1 ∧
      countEv isTransport (WithoutMcp.fetch_loop e http now last cb a r).2.2 = k + 1 := by
  intro k
  induction k with
  | zero =>
    intro r a last cb hkr _ hok
    rw [Nat.add_zero] at hok
    cases r with
    | zero => omega
    | succ r =>
      simp [WithoutMcp.fetch_loop, hok, countEv, isRecordFailure, isRecordSuccess,
        isTransport]
  | succ k ih =>
    intro r a last cb hkr hfail hok
    cases r with
    | zero => omega
    | succ r =>
      have hfa : isFailTR (http a) = true := by
        have := hfail 0 (by omega)
        simpa using this
      have hshift : ∀ i, i < k → isFailTR (http (a + 1 + i)) = true := fun i hi => by
        have := hfail (i + 1) (by omega)
        rwa [show a + (i + 1) = a + 1 + i from by omega] at this
      have hok1 : http (a + 1 + k) = .ok p := by
        rwa [show a + 1 + k = a + (k + 1) from by omega]
      cases hhttp : http a with
      | ok q => rw [hhttp] at hfa; simp [isFailTR] at hfa
      | err m =>
        have ihr := ih r (a + 1) (some m) (cb.record_failure now) (by omega) hshift hok1
        by_cases hr0 : r = 0
        · omega
        · simp [WithoutMcp.fetch_loop, hhttp, hr0, countEv, isRecordFailure,
            isRecordSuccess, isTransport, ihr.1, ihr.2.1, ihr.2.2.1, ihr.2.2.2]
          omega
      | timeout =>
        have ihr := ih r (a + 1) (some "Timeout") (cb.record_failure now) (by omega)
          hshift hok1
        by_cases hr0 : r = 0
        · omega
        · simp [WithoutMcp.fetch_loop, hhttp, hr0, countEv, isRecordFailure,
            isRecordSuccess, isTransport, ihr.1, ihr.2.1, ihr.2.2.1, ihr.2.2.2]
          omega

/-! ## Branch lemmas for the with-mcp fetch_one task -/

theorem fetch_one_open_spec (m : ℕ) (http : String → ℕ → TransportResult)
    (onP : WithMcp.Progress) (total : ℕ) (now : ℚ) (st : WithMcp.AggState) (e : String)
    (hopen : (st.breaker.is_open e now).1 = true) :
    (WithMcp.fetch_one m http onP total now st e).1.successful = st.successful ∧
    (WithMcp.fetch_one m http onP total now st e).1.failed =
      dinsert e "Circuit breaker open" st.failed ∧
    countEv isAcquire (WithMcp.fetch_one m http onP total now st e).2.1 = 0 ∧
    countEv isTransport (WithMcp.fetch_one m http onP total now st e).2.1 = 0 ∧
    countEv isRecordSuccess (WithMcp.fetch_one m http onP total now st e).2.1 = 0 ∧
    countEv isRecordFailure (WithMcp.fetch_one m http onP total now st e).2.1 = 0 ∧
    (progressOk onP → (WithMcp.fetch_one m http onP total now st e).2.2 = none) := by
  cases onP with
  | none =>
    simp [WithMcp.fetch_one, hopen, countEv, isAcquire, isTransport, isRecordSuccess,
      isRecordFailure]
  | some f =>
    cases hf : f ⟨st.completed + 1, total, e, false, some "Circuit breaker open"⟩ with
    | ok u =>
      simp [WithMcp.fetch_one, hopen, hf, countEv, isAcquire, isTransport,
        isRecordSuccess, isRecordFailure]
    | error exc =>
      simp [WithMcp.fetch_one, hopen, hf, countEv, isAcquire, isTransport,
        isRecordSuccess, isRecordFailure]
      intro hp
      have := hp f rfl ⟨st.completed + 1, total, e, false, some "Circuit breaker open"⟩
      rw [hf] at this
      simp at this

theorem fetch_one_admitted_spec (m : ℕ) (http : String → ℕ → TransportResult)
    (onP : WithMcp.Progress) (total : ℕ) (now : ℚ) (st : WithMcp.AggState) (e : String)
    (hopen : (st.breaker.is_open e now).1 = false) (hp : progressOk onP) :
    (WithMcp.fetch_one m http onP total now st e).2.2 = none ∧
    countEv isAcquire (WithMcp.fetch_one m http onP total now st e).2.1 = 1 ∧
    countEv isBreakerCheck (WithMcp.fetch_one m http onP total now st e).2.1 = 1 ∧
    countEv isTransport (WithMcp.fetch_one m http onP total now st e).2.1 =
      WithMcp.retryCallCount
        (WithMcp.retry_with_backoff (fun i => WithMcp._fetch_endpoint http e i) m (1 / 10)).2 ∧
    (WithMcp.fetch_one m http onP total now st e).2.1.head? =
      some (Event.breakerCheck e true) ∧
    (∀ data,
      (WithMcp.retry_with_backoff (fun i => WithMcp._fetch_endpoint http e i) m (1 / 10)).1 =
        .ok data →
      (WithMcp.fetch_one m http onP total now st e).1.successful =
        dinsert e data st.successful ∧
      (WithMcp.fetch_one m http onP total now st e).1.failed = st.failed ∧
      countEv isRecordSuccess (WithMcp.fetch_one m http onP total now st e).2.1 = 1 ∧
      countEv isRecordFailure (WithMcp.fetch_one m http onP total now st e).2.1 = 0) ∧
    (∀ msg,
      (WithMcp.retry_with_backoff (fun i => WithMcp._fetch_endpoint http e i) m (1 / 10)).1 =
        .error msg →
      (WithMcp.fetch_one m http onP total now st e).1.successful = st.successful ∧
      (WithMcp.fetch_one m http onP total now st e).1.failed = dinsert e msg st.failed ∧
      countEv isRecordSuccess (WithMcp.fetch_one m http onP total now st e).2.1 = 0 ∧
      countEv isRecordFailure (WithMcp.fetch_one m http onP total now st e).2.1 = 1) := by
  cases hr : (WithMcp.retry_with_backoff (fun i => WithMcp._fetch_endpoint http e i)
      m (1 / 10)).1 with
  | ok data =>
    rw [one_div] at hr
    cases onP with
    | none =>
      simp [WithMcp.fetch_one, hopen, hr, countEv, countEv_append, isAcquire,
        isBreakerCheck, isTransport, isRecordSuccess, isRecordFailure,
        countEv_isAcquire_map_retry, countEv_isBreakerCheck_map_retry,
        countEv_isTransport_map_retry, countEv_isRecordSuccess_map_retry,
        countEv_isRecordFailure_map_retry]
    | some f =>
      have hpf := hp f rfl
      simp [WithMcp.fetch_one, hopen, hr, hpf, countEv, countEv_append, isAcquire,
        isBreakerCheck, isTransport, isRecordSuccess, isRecordFailure,
        countEv_isAcquire_map_retry, countEv_isBreakerCheck_map_retry,
        countEv_isTransport_map_retry, countEv_isRecordSuccess_map_retry,
        countEv_isRecordFailure_map_retry]
  | error msg =>
    rw [one_div] at hr
    cases onP with
    | none =>
      simp [WithMcp.fetch_one, hopen, hr, countEv, countEv_append, isAcquire,
        isBreakerCheck, isTransport, isRecordSuccess, isRecordFailure,
        countEv_isAcquire_map_retry, countEv_isBreakerCheck_map_retry,
        countEv_isTransport_map_retry, countEv_isRecordSuccess_map_retry,
        countEv_isRecordFailure_map_retry]
    | some f =>
      have hpf := hp f rfl
      simp [WithMcp.fetch_one, hopen, hr, hpf, countEv, countEv_append, isAcquire,
        isBreakerCheck, isTransport, isRecordSuccess, isRecordFailure,
        countEv_isAcquire_map_retry, countEv_isBreakerCheck_map_retry,
        countEv_isTransport_map_retry, countEv_isRecordSuccess_map_retry,
        countEv_isRecordFailure_map_retry]

/-! ## Claim C2: rate-limiter tokens across retry attempts -/

/-- C2 (amended): in the without-mcp variant every retry attempt (first and
subsequent) acquires a rate-limiter token before its transport invocation —
the admitted task's trace satisfies the token discipline with exactly as many
acquisitions as transport invocations; in the with-mcp variant a single token
is acquired once, before the whole retry sequence, and retries reuse it.  In
both variants the circuit breaker is consulted exactly once, as the very first
event of the task, before the retry sequence begins.  (With-mcp trace facts
are stated for runs whose progress callback never raises.) -/
theorem rate_token_discipline_amended
    (th : ℕ) (rcv : ℚ) (m : ℕ) (http : String → ℕ → TransportResult)
    (reg : WithoutMcp.Registry) (now : ℚ) (e : String)
    (havail : ((WithoutMcp._get_circuit_breaker th rcv reg e).1).is_available now = true)
    (m2 : ℕ) (http2 : String → ℕ → TransportResult) (onP : WithMcp.Progress) (total : ℕ)
    (now2 : ℚ) (st : WithMcp.AggState) (e2 : String)
    (hopen : (st.breaker.is_open e2 now2).1 = false) (hp : progressOk onP) :
    (tokenBalanceOk 0 (WithoutMcp.fetch_one th rcv m http reg now e).2.2 = true ∧
     acquireCount (WithoutMcp.fetch_one th rcv m http reg now e).2.2 =
       transportCount (WithoutMcp.fetch_one th rcv m http reg now e).2.2 ∧
     breakerCheckCount (WithoutMcp.fetch_one th rcv m http reg now e).2.2 = 1 ∧
     (WithoutMcp.fetch_one th rcv m http reg now e).2.2.head? =
       some (Event.breakerCheck e true)) ∧
    (acquireCount (WithMcp.fetch_one m2 http2 onP total now2 st e2).2.1 = 1 ∧
     breakerCheckCount (WithMcp.fetch_one m2 http2 onP total now2 st e2).2.1 = 1 ∧
     (WithMcp.fetch_one m2 http2 onP total now2 st e2).2.1.head? =
       some (Event.breakerCheck e2 true)) := by
  have hd := fetch_loop_trace_discipline e (http e) now m none
    (WithoutMcp._get_circuit_breaker th rcv reg e).1 0
  have ha := fetch_one_admitted_spec m2 http2 onP total now2 st e2 hopen hp
  constructor
  · refine ⟨?_, ?_, ?_, ?_⟩
    all_goals
      simp [WithoutMcp.fetch_one, havail, tokenBalanceOk, acquireCount, transportCount,
        breakerCheckCount, countEv, isAcquire, isTransport, isBreakerCheck,
        hd.1, hd.2.1, hd.2.2]
  · exact ⟨by simpa [acquireCount] using ha.2.1,
      by simpa [breakerCheckCount] using ha.2.2.1, ha.2.2.2.2.1⟩

/-- Witness for rate_token_discipline_amended: fresh breakers, a transport
that always succeeds, two allowed attempts, no progress callback. -/
theorem rate_token_discipline_amended_witness :
    tokenBalanceOk 0
      (WithoutMcp.fetch_one 5 30 2 httpAlwaysOk (fun _ => none) 0 "a").2.2 = true ∧
    acquireCount (WithMcp.fetch_one 2 httpAlwaysOk none 1 0
      ⟨[], [], 0, WithMcp.CircuitBreaker.init 5 30⟩ "a").2.1 = 1 := by
  have h := rate_token_discipline_amended 5 30 2 httpAlwaysOk (fun _ => none) 0 "a"
    (by decide) 2 httpAlwaysOk none 1 0 ⟨[], [], 0, WithMcp.CircuitBreaker.init 5 30⟩ "a"
    (by decide) (fun _ hf => nomatch hf)
  exact ⟨h.1.1, h.2.1⟩

/-! ## Claim C3: breaker recordings per retry sequence -/

/-- C3 (amended): in the with-mcp variant an admitted orchestrator-level fetch
makes exactly one breaker recording when the retry sequence finishes — one
record_success if it ended in success, one record_failure if it ended in
failure (stated for runs whose progress callback never raises); in the
without-mcp variant every individual attempt records, so a sequence of k
failed attempts followed by a success records k failures plus one success. -/
theorem breaker_recording_amended
    (m2 : ℕ) (http2 : String → ℕ → TransportResult) (onP : WithMcp.Progress) (total : ℕ)
    (now2 : ℚ) (st : WithMcp.AggState) (e2 : String)
    (hopen : (st.breaker.is_open e2 now2).1 = false) (hp : progressOk onP)
    (th : ℕ) (rcv : ℚ) (m k : ℕ) (http : String → ℕ → TransportResult)
    (reg : WithoutMcp.Registry) (now : ℚ) (e p : String)
    (havail : ((WithoutMcp._get_circuit_breaker th rcv reg e).1).is_available now = true)
    (hkm : k < m) (hfails : ∀ i, i < k → isFailTR (http e i) = true)
    (hok : http e k = .ok p) :
    ((∀ data,
        (WithMcp.retry_with_backoff (fun i => WithMcp._fetch_endpoint http2 e2 i) m2
          (1 / 10)).1 = .ok data →
        recordSuccessCount (WithMcp.fetch_one m2 http2 onP total now2 st e2).2.1 = 1 ∧
        recordFailureCount (WithMcp.fetch_one m2 http2 onP total now2 st e2).2.1 = 0) ∧
     (∀ msg,
        (WithMcp.retry_with_backoff (fun i => WithMcp._fetch_endpoint http2 e2 i) m2
          (1 / 10)).1 = .error msg →
        recordSuccessCount (WithMcp.fetch_one m2 http2 onP total now2 st e2).2.1 = 0 ∧
        recordFailureCount (WithMcp.fetch_one m2 http2 onP total now2 st e2).2.1 = 1)) ∧
    ((WithoutMcp.fetch_one th rcv m http reg now e).1 = (e, some p, none) ∧
     recordFailureCount (WithoutMcp.fetch_one th rcv m http reg now e).2.2 = k ∧
     recordSuccessCount (WithoutMcp.fetch_one th rcv m http reg now e).2.2 = 1) := by
  have ha := fetch_one_admitted_spec m2 http2 onP total now2 st e2 hopen hp
  have hfl := fetch_loop_fail_then_ok e (http e) now p k m 0 none
    (WithoutMcp._get_circuit_breaker th rcv reg e).1 hkm
    (fun i hi => by simpa using hfails i hi) (by simpa using hok)
  refine ⟨⟨?_, ?_⟩, ?_, ?_, ?_⟩
  · intro data hdata
    have := ha.2.2.2.2.2.1 data hdata
    exact ⟨by simpa [recordSuccessCount] using this.2.2.1,
      by simpa [recordFailureCount] using this.2.2.2⟩
  · intro msg hmsg
    have := ha.2.2.2.2.2.2 msg hmsg
    exact ⟨by simpa [recordSuccessCount] using this.2.2.1,
      by simpa [recordFailureCount] using this.2.2.2⟩
  · simp [WithoutMcp.fetch_one, havail, hfl.1]
  · simp [WithoutMcp.fetch_one, havail, recordFailureCount, countEv, isRecordFailure,
      hfl.2.1]
  · simp [WithoutMcp.fetch_one, havail, recordSuccessCount, countEv, isRecordSuccess,
      hfl.2.2.1]

/-- Witness for breaker_recording_amended: with-mcp fetch of an endpoint whose
transport always succeeds records exactly one success; without-mcp fetch with
one failed attempt then success records one failure and one success. -/
theorem breaker_recording_amended_witness :
    recordSuccessCount (WithMcp.fetch_one 2 httpAlwaysOk none 1 0
      ⟨[], [], 0, WithMcp.CircuitBreaker.init 5 30⟩ "a").2.1 = 1 ∧
    recordFailureCount
      (WithoutMcp.fetch_one 5 30 2 httpFailThenOk (fun _ => none) 0 "a").2.2 = 1 := by
  have h := breaker_recording_amended 2 httpAlwaysOk none 1 0
    ⟨[], [], 0, WithMcp.CircuitBreaker.init 5 30⟩ "a" (by decide) (fun _ hf => nomatch hf)
    5 30 2 1 httpFailThenOk (fun _ => none) 0 "a" "payload" (by decide) (by omega)
    (fun i hi => by
      have h0 : i = 0 := by omega
      subst h0
      decide) (by decide)
  exact ⟨(h.1.1 "data" (by decide)).1, h.2.2.1⟩

/-! ## Claim C4: circuit-open short-circuit -/

/-- C4: whenever the circuit breaker reports an endpoint unavailable at the
start of its task, the endpoint's outcome is the "Circuit breaker open"
failure, no rate-limiter token is consumed, no retry is attempted, the
transport is never invoked and nothing is recorded on the breaker — in both
variants; and concretely, with failureThreshold = 1 and a transport that
always fails, a second fetch_all on the same endpoint right after a first
failing call short-circuits this way with no transport invocation. -/
theorem circuit_open_short_circuit
    (m : ℕ) (http : String → ℕ → TransportResult) (onP : WithMcp.Progress) (total : ℕ)
    (now : ℚ) (st : WithMcp.AggState) (e : String)
    (hopen : (st.breaker.is_open e now).1 = true)
    (th : ℕ) (rcv : ℚ) (m2 : ℕ) (http2 : String → ℕ → TransportResult)
    (reg : WithoutMcp.Registry) (now2 : ℚ) (e2 : String)
    (hunavail : ((WithoutMcp._get_circuit_breaker th rcv reg e2).1).is_available now2
      = false) :
    ((WithMcp.fetch_one m http onP total now st e).1.failed =
       dinsert e "Circuit breaker open" st.failed ∧
     (WithMcp.fetch_one m http onP total now st e).1.successful = st.successful ∧
     acquireCount (WithMcp.fetch_one m http onP total now st e).2.1 = 0 ∧
     transportCount (WithMcp.fetch_one m http onP total now st e).2.1 = 0 ∧
     recordSuccessCount (WithMcp.fetch_one m http onP total now st e).2.1 = 0 ∧
     recordFailureCount (WithMcp.fetch_one m http onP total now st e).2.1 = 0) ∧
    ((WithoutMcp.fetch_one th rcv m2 http2 reg now2 e2).1 =
       (e2, none, some "Circuit breaker open") ∧
     (WithoutMcp.fetch_one th rcv m2 http2 reg now2 e2).2.2 =
       [Event.breakerCheck e2 false]) ∧
    ((WithMcp.fetch_all 1 httpAlwaysErr none
        ((WithMcp.fetch_all 1 httpAlwaysErr none (WithMcp.CircuitBreaker.init 1 30)
          ["a"] 0).2.2) ["a"] 1).1 =
       Except.ok ⟨[], [("a", "Circuit breaker open")], 0⟩ ∧
     transportCount (WithMcp.fetch_all 1 httpAlwaysErr none
        ((WithMcp.fetch_all 1 httpAlwaysErr none (WithMcp.CircuitBreaker.init 1 30)
          ["a"] 0).2.2) ["a"] 1).2.1 = 0 ∧
     acquireCount (WithMcp.fetch_all 1 httpAlwaysErr none
        ((WithMcp.fetch_all 1 httpAlwaysErr none (WithMcp.CircuitBreaker.init 1 30)
          ["a"] 0).2.2) ["a"] 1).2.1 = 0) ∧
    ((WithoutMcp.fetch_all 1 30 1 httpAlwaysErr none
        ((WithoutMcp.fetch_all 1 30 1 httpAlwaysErr none (fun _ => none) ["a"] 0).2.2)
        ["a"] 1).1 = Except.ok ⟨[], [("a", "Circuit breaker open")], 0⟩ ∧
     transportCount (WithoutMcp.fetch_all 1 30 1 httpAlwaysErr none
        ((WithoutMcp.fetch_all 1 30 1 httpAlwaysErr none (fun _ => none) ["a"] 0).2.2)
        ["a"] 1).2.1 = 0 ∧
     acquireCount (WithoutMcp.fetch_all 1 30 1 httpAlwaysErr none
        ((WithoutMcp.fetch_all 1 30 1 httpAlwaysErr none (fun _ => none) ["a"] 0).2.2)
        ["a"] 1).2.1 = 0) := by
  have ho := fetch_one_open_spec m http onP total now st e hopen
  have hno : ¬ ((30 : ℚ) ≤ 1) := by norm_num
  refine ⟨⟨ho.2.1, ho.1, ?_, ?_, ?_, ?_⟩, ⟨?_, ?_⟩, ⟨?_, ?_, ?_⟩, ⟨?_, ?_, ?_⟩⟩
  · simpa [acquireCount] using ho.2.2.1
  · simpa [transportCount] using ho.2.2.2.1
  · simpa [recordSuccessCount] using ho.2.2.2.2.1
  · simpa [recordFailureCount] using ho.2.2.2.2.2.1
  · simp [WithoutMcp.fetch_one, hunavail]
  · simp [WithoutMcp.fetch_one, hunavail]
  all_goals
    simp [WithMcp.fetch_all, WithMcp.run_all, WithMcp.fetch_one,
      WithMcp.CircuitBreaker.is_open, WithMcp.CircuitBreaker.get_state,
      WithMcp.CircuitBreaker.record_failure, WithMcp.CircuitBreaker.record_success,
      WithMcp.CircuitBreaker.init, WithMcp.retry_with_backoff, WithMcp.retryAux,
      WithMcp._fetch_endpoint, WithoutMcp.fetch_all, WithoutMcp.run_fetches,
      WithoutMcp.fetch_one, WithoutMcp.fan_in, WithoutMcp.fetch_loop,
      WithoutMcp._get_circuit_breaker, WithoutMcp.CircuitBreaker.is_available,
      WithoutMcp.CircuitBreaker.record_failure, WithoutMcp.CircuitBreaker.record_success,
      WithoutMcp.CircuitBreaker.init, httpAlwaysErr, upd, dinsert, hno,
      transportCount, acquireCount, countEv, isTransport, isAcquire]

/-- Witness for circuit_open_short_circuit: breakers opened by one recorded
failure with threshold 1, consulted again before recovery. -/
theorem circuit_open_short_circuit_witness :
    (WithMcp.fetch_one 1 httpAlwaysErr none 1 1
      ⟨[], [], 0, (WithMcp.CircuitBreaker.init 1 30).record_failure "a" 0⟩ "a").1.failed =
      dinsert "a" "Circuit breaker open" [] ∧
    (WithoutMcp.fetch_one 1 30 1 httpAlwaysErr
      (upd (fun _ => none) "a" ((WithoutMcp.CircuitBreaker.init 1 30).record_failure 0))
      1 "a").1 = ("a", none, some "Circuit breaker open") := by
  have hno : ¬ ((30 : ℚ) ≤ 1) := by norm_num
  have h := circuit_open_short_circuit 1 httpAlwaysErr none 1 1
    ⟨[], [], 0, (WithMcp.CircuitBreaker.init 1 30).record_failure "a" 0⟩ "a"
    (by simp [WithMcp.CircuitBreaker.is_open, WithMcp.CircuitBreaker.get_state,
      WithMcp.CircuitBreaker.record_failure, WithMcp.CircuitBreaker.init, upd, hno])
    1 30 1 httpAlwaysErr
    (upd (fun _ => none) "a" ((WithoutMcp.CircuitBreaker.init 1 30).record_failure 0))
    1 "a"
    (by simp [WithoutMcp._get_circuit_breaker, WithoutMcp.CircuitBreaker.is_available,
      WithoutMcp.CircuitBreaker.record_failure, WithoutMcp.CircuitBreaker.init, upd, hno])
  exact ⟨h.1.1, h.2.1.1⟩

/-! ## Claim C5: per-attempt timeouts -/

/-- C5 (amended): a per-attempt timeout is a retryable failure in both
variants and the attempt is retried until maxAttempts transport invocations
have been made (not fewer); the final outcome is the Failure "Timeout" in the
without-mcp variant, while the with-mcp variant records the timeout
exception's empty message (str of a bare asyncio.TimeoutError) as the failure
reason. -/
theorem timeout_retry_amended
    (th : ℕ) (rcv : ℚ) (m : ℕ) (hm : 1 ≤ m) (http : String → ℕ → TransportResult)
    (reg : WithoutMcp.Registry) (now : ℚ) (e : String)
    (havail : ((WithoutMcp._get_circuit_breaker th rcv reg e).1).is_available now = true)
    (hto : ∀ i, http e i = .timeout)
    (m2 : ℕ) (hm2 : 1 ≤ m2) (http2 : String → ℕ → TransportResult) (onP : WithMcp.Progress)
    (total : ℕ) (now2 : ℚ) (st : WithMcp.AggState) (e2 : String)
    (hopen : (st.breaker.is_open e2 now2).1 = false) (hp : progressOk onP)
    (hto2 : ∀ i, http2 e2 i = .timeout) :
    ((WithoutMcp.fetch_one th rcv m http reg now e).1 = (e, none, some "Timeout") ∧
     transportCount (WithoutMcp.fetch_one th rcv m http reg now e).2.2 = m) ∧
    ((WithMcp.fetch_one m2 http2 onP total now2 st e2).1.failed = dinsert e2 "" st.failed ∧
     (WithMcp.fetch_one m2 http2 onP total now2 st e2).1.successful = st.successful ∧
     transportCount (WithMcp.fetch_one m2 http2 onP total now2 st e2).2.1 = m2) := by
  have hft := fetch_loop_all_timeout e (http e) now hto m none
    (WithoutMcp._get_circuit_breaker th rcv reg e).1 0 hm
  obtain ⟨r, rfl⟩ : ∃ r, m2 = r + 1 := ⟨m2 - 1, by omega⟩
  have hall := retryAux_all_fail (fun i => WithMcp._fetch_endpoint http2 e2 i) (1 / 10) r 0
    (fun i _ _ => by simp [WithMcp._fetch_endpoint, hto2 i, Except.isOk, Except.toBool])
  have hretry : (WithMcp.retry_with_backoff (fun i => WithMcp._fetch_endpoint http2 e2 i)
      (r + 1) (1 / 10)).1 = .error "" := by
    unfold WithMcp.retry_with_backoff
    rw [hall.1]
    simp [WithMcp._fetch_endpoint, hto2]
  have hcount : WithMcp.retryCallCount
      (WithMcp.retry_with_backoff (fun i => WithMcp._fetch_endpoint http2 e2 i)
        (r + 1) (1 / 10)).2 = r + 1 := by
    unfold WithMcp.retry_with_backoff
    exact hall.2.1
  have ha := fetch_one_admitted_spec (r + 1) http2 onP total now2 st e2 hopen hp
  have herr := ha.2.2.2.2.2.2 "" hretry
  refine ⟨⟨?_, ?_⟩, herr.2.1, herr.1, ?_⟩
  · simp [WithoutMcp.fetch_one, havail, hft.1]
  · simp [WithoutMcp.fetch_one, havail, transportCount, countEv, isTransport, hft.2]
  · have := ha.2.2.2.1
    rw [hcount] at this
    simpa [transportCount] using this

/-- Witness for timeout_retry_amended: fresh breakers, an always-timing-out
transport, three attempts in each variant. -/
theorem timeout_retry_amended_witness :
    (WithoutMcp.fetch_one 5 30 3 httpAlwaysTimeout (fun _ => none) 0 "a").1 =
      ("a", none, some "Timeout") ∧
    (WithMcp.fetch_one 3 httpAlwaysTimeout none 1 0
      ⟨[], [], 0, WithMcp.CircuitBreaker.init 5 30⟩ "a").1.failed =
      dinsert "a" "" [] ∧
    transportCount (WithMcp.fetch_one 3 httpAlwaysTimeout none 1 0
      ⟨[], [], 0, WithMcp.CircuitBreaker.init 5 30⟩ "a").2.1 = 3 := by
  have h := timeout_retry_amended 5 30 3 (by omega) httpAlwaysTimeout (fun _ => none) 0 "a"
    (by decide) (fun i => rfl) 3 (by omega) httpAlwaysTimeout none 1 0
    ⟨[], [], 0, WithMcp.CircuitBreaker.init 5 30⟩ "a" (by decide) (fun _ hf => nomatch hf)
    (fun i => rfl)
  exact ⟨h.1.1, h.2.1, h.2.2.2⟩

/-! ## Claim C8: fetch_all totality -/

theorem fetch_one_exc_none (m : ℕ) (http : String → ℕ → TransportResult)
    (onP : WithMcp.Progress) (total : ℕ) (now : ℚ) (st : WithMcp.AggState) (e : String)
    (hp : progressOk onP) :
    (WithMcp.fetch_one m http onP total now st e).2.2 = none := by
  by_cases hopen : (st.breaker.is_open e now).1 = true
  · exact (fetch_one_open_spec m http onP total now st e hopen).2.2.2.2.2.2 hp
  · have hfalse : (st.breaker.is_open e now).1 = false := by
      simpa using hopen
    exact (fetch_one_admitted_spec m http onP total now st e hfalse hp).1

theorem run_all_exc_none (m : ℕ) (http : String → ℕ → TransportResult)
    (onP : WithMcp.Progress) (total : ℕ) (now : ℚ) (hp : progressOk onP) :
    ∀ es st, (WithMcp.run_all m http onP total now st es).2.2 = none := by
  intro es
  induction es with
  | nil => intro st; simp [WithMcp.run_all]
  | cons e rest ih =>
    intro st
    have h1 := fetch_one_exc_none m http onP total now st e hp
    simp [WithMcp.run_all, h1, ih]

theorem fan_in_never_raises (onQ : Option (ℕ → ℕ → Except String Unit)) (total : ℕ)
    (hq : progressOk2 onQ) :
    ∀ triples S F c, ∃ maps, WithoutMcp.fan_in onQ total S F c triples = .ok maps := by
  intro triples
  induction triples with
  | nil => intro S F c; exact ⟨(S, F), rfl⟩
  | cons t rest ih =>
    intro S F c
    obtain ⟨e, res, err⟩ := t
    cases onQ with
    | none =>
      cases err <;> simpa [WithoutMcp.fan_in] using ih _ _ (c + 1)
    | some f =>
      have hf := hq f rfl (c + 1) total
      cases err <;> simpa [WithoutMcp.fan_in, hf] using ih _ _ (c + 1)

/-- C8 (amended): for any transport behaviour and any inputs, fetch_all never
propagates an error to its caller as long as the supplied progress callback
never raises (per-endpoint failures are represented in the failed map); an
exception raised inside the progress callback, however, propagates out of
fetch_all and aborts the orchestration (see the counterexample). -/
theorem fetch_all_total_amended
    (m : ℕ) (http : String → ℕ → TransportResult) (onP : WithMcp.Progress)
    (cb : WithMcp.CircuitBreaker) (es : List String) (now : ℚ) (hp : progressOk onP)
    (th : ℕ) (rcv : ℚ) (m2 : ℕ) (http2 : String → ℕ → TransportResult)
    (onQ : Option (ℕ → ℕ → Except String Unit)) (reg : WithoutMcp.Registry)
    (es2 : List String) (now2 : ℚ) (hq : progressOk2 onQ) :
    (WithMcp.fetch_all m http onP cb es now).1.isOk = true ∧
    (WithoutMcp.fetch_all th rcv m2 http2 onQ reg es2 now2).1.isOk = true := by
  constructor
  · have h := run_all_exc_none m http onP es.length now hp es
      ⟨[], [], 0, cb⟩
    simp [WithMcp.fetch_all, h, Except.isOk, Except.toBool]
  · obtain ⟨maps, hm⟩ := fan_in_never_raises onQ es2.length hq
      (WithoutMcp.run_fetches th rcv m2 http2 now2 reg es2).1 [] [] 0
    simp [WithoutMcp.fetch_all, hm, Except.isOk, Except.toBool]

/-- Witness for fetch_all_total_amended: no callback supplied, a transport
that always fails — both calls still return a result. -/
theorem fetch_all_total_amended_witness :
    (WithMcp.fetch_all 1 httpAlwaysErr none (WithMcp.CircuitBreaker.init 5 30)
      ["a", "b"] 0).1.isOk = true ∧
    (WithoutMcp.fetch_all 5 30 1 httpAlwaysErr none (fun _ => none)
      ["a", "b"] 0).1.isOk = true :=
  fetch_all_total_amended 1 httpAlwaysErr none (WithMcp.CircuitBreaker.init 5 30)
    ["a", "b"] 0 (fun _ hf => nomatch hf) 5 30 1 httpAlwaysErr none (fun _ => none)
    ["a", "b"] 0 (fun _ hf => nomatch hf)

/-! ## Claim C1: the partition invariant of the result maps -/

theorem fetch_one_keys (m : ℕ) (http : String → ℕ → TransportResult)
    (onP : WithMcp.Progress) (total : ℕ) (now : ℚ) (st : WithMcp.AggState) (e : String)
    (hp : progressOk onP) (hs : e ∉ keysOf st.successful) (hf : e ∉ keysOf st.failed) :
    (keysOf (WithMcp.fetch_one m http onP total now st e).1.successful =
        keysOf st.successful ++ [e] ∧
      keysOf (WithMcp.fetch_one m http onP total now st e).1.failed =
        keysOf st.failed) ∨
    (keysOf (WithMcp.fetch_one m http onP total now st e).1.successful =
        keysOf st.successful ∧
      keysOf (WithMcp.fetch_one m http onP total now st e).1.failed =
        keysOf st.failed ++ [e]) := by
  by_cases hopen : (st.breaker.is_open e now).1 = true
  · have ho := fetch_one_open_spec m http onP total now st e hopen
    right
    rw [ho.1, ho.2.1, keysOf_dinsert_not_mem e _ _ hf]
    exact ⟨rfl, rfl⟩
  · have hfalse : (st.breaker.is_open e now).1 = false := by simpa using hopen
    have ha := fetch_one_admitted_spec m http onP total now st e hfalse hp
    cases hr : (WithMcp.retry_with_backoff (fun i => WithMcp._fetch_endpoint http e i)
        m (1 / 10)).1 with
    | ok data =>
      have := ha.2.2.2.2.2.1 data hr
      left
      rw [this.1, this.2.1, keysOf_dinsert_not_mem e _ _ hs]
      exact ⟨rfl, rfl⟩
    | error msg =>
      have := ha.2.2.2.2.2.2 msg hr
      right
      rw [this.1, this.2.1, keysOf_dinsert_not_mem e _ _ hf]
      exact ⟨rfl, rfl⟩

theorem run_all_keys (m : ℕ) (http : String → ℕ → TransportResult)
    (onP : WithMcp.Progress) (total : ℕ) (now : ℚ) (hp : progressOk onP) :
    ∀ es st, es.Nodup →
      (∀ x, x ∈ es → x ∉ keysOf st.successful ∧ x ∉ keysOf st.failed) →
      (keysOf (WithMcp.run_all m http onP total now st es).1.successful ++
        keysOf (WithMcp.run_all m http onP total now st es).1.failed).Perm
        ((keysOf st.successful ++ keysOf st.failed) ++ es) := by
  intro es
  induction es with
  | nil =>
    intro st _ _
    simp [WithMcp.run_all]
  | cons e rest ih =>
    intro st hnd hmem
    have hes := hmem e (List.mem_cons_self _ _)
    have hstep := fetch_one_keys m http onP total now st e hp hes.1 hes.2
    have hexc := fetch_one_exc_none m http onP total now st e hp
    have hrw : WithMcp.run_all m http onP total now st (e :: rest) =
        ((WithMcp.run_all m http onP total now
            (WithMcp.fetch_one m http onP total now st e).1 rest).1,
          (WithMcp.fetch_one m http onP total now st e).2.1 ++
            (WithMcp.run_all m http onP total now
              (WithMcp.fetch_one m http onP total now st e).1 rest).2.1,
          (WithMcp.run_all m http onP total now
            (WithMcp.fetch_one m http onP total now st e).1 rest).2.2) := by
      simp [WithMcp.run_all, hexc]
    rw [hrw]
    have hnd' : rest.Nodup := (List.nodup_cons.mp hnd).2
    have hne : e ∉ rest := (List.nodup_cons.mp hnd).1
    cases hstep with
    | inl hl =>
      have hmem' : ∀ x, x ∈ rest →
          x ∉ keysOf (WithMcp.fetch_one m http onP total now st e).1.successful ∧
          x ∉ keysOf (WithMcp.fetch_one m http onP total now st e).1.failed := by
        intro x hx
        have hxe : x ≠ e := fun hxe => hne (hxe ▸ hx)
        have hxm := hmem x (List.mem_cons_of_mem _ hx)
        rw [hl.1, hl.2]
        constructor
        · simp [List.mem_append, hxe]
          exact hxm.1
        · exact hxm.2
      have hperm := ih ((WithMcp.fetch_one m http onP total now st e).1) hnd' hmem'
      rw [hl.1, hl.2] at hperm
      refine hperm.trans ?_
      have h1 : ((keysOf st.successful ++ [e]) ++ keysOf st.failed) ++ rest =
          keysOf st.successful ++ (e :: (keysOf st.failed ++ rest)) := by
        simp [List.append_assoc]
      have h2 : (keysOf st.successful ++ keysOf st.failed) ++ (e :: rest) =
          keysOf st.successful ++ (keysOf st.failed ++ (e :: rest)) := by
        simp [List.append_assoc]
      rw [h1, h2]
      exact List.Perm.append_left _ List.perm_middle.symm
    | inr hr =>
      have hmem' : ∀ x, x ∈ rest →
          x ∉ keysOf (WithMcp.fetch_one m http onP total now st e).1.successful ∧
          x ∉ keysOf (WithMcp.fetch_one m http onP total now st e).1.failed := by
        intro x hx
        have hxe : x ≠ e := fun hxe => hne (hxe ▸ hx)
        have hxm := hmem x (List.mem_cons_of_mem _ hx)
        rw [hr.1, hr.2]
        constructor
        · exact hxm.1
        · simp [List.mem_append, hxe]
          exact hxm.2
      have hperm := ih ((WithMcp.fetch_one m http onP total now st e).1) hnd' hmem'
      rw [hr.1, hr.2] at hperm
      refine hperm.trans ?_
      have h1 : ((keysOf st.successful ++ (keysOf st.failed ++ [e])) ++ rest) =
          (keysOf st.successful ++ keysOf st.failed) ++ (e :: rest) := by
        simp [List.append_assoc]
      rw [h1]

theorem fetch_one_fst (th : ℕ) (rcv : ℚ) (m : ℕ) (http : String → ℕ → TransportResult)
    (reg : WithoutMcp.Registry) (now : ℚ) (e : String) :
    (WithoutMcp.fetch_one th rcv m http reg now e).1.1 = e := by
  simp only [WithoutMcp.fetch_one]
  split <;> rfl

theorem run_fetches_fst (th : ℕ) (rcv : ℚ) (m : ℕ) (http : String → ℕ → TransportResult)
    (now : ℚ) :
    ∀ es reg, ((WithoutMcp.run_fetches th rcv m http now reg es).1.map
      (fun t => t.1)) = es := by
  intro es
  induction es with
  | nil => intro reg; simp [WithoutMcp.run_fetches]
  | cons e rest ih =>
    intro reg
    simp [WithoutMcp.run_fetches, fetch_one_fst, ih]

theorem fan_in_keys (onQ : Option (ℕ → ℕ → Except String Unit)) (total : ℕ)
    (hq : progressOk2 onQ) :
    ∀ (triples : List (String × Option String × Option String)) S F c,
      (triples.map (fun t => t.1)).Nodup →
      (∀ t, t ∈ triples → t.1 ∉ keysOf S ∧ t.1 ∉ keysOf F) →
      ∃ maps, WithoutMcp.fan_in onQ total S F c triples = .ok maps ∧
        (keysOf maps.1 ++ keysOf maps.2).Perm
          ((keysOf S ++ keysOf F) ++ triples.map (fun t => t.1)) := by
  intro triples
  induction triples with
  | nil =>
    intro S F c _ _
    exact ⟨(S, F), rfl, by simp⟩
  | cons t rest ih =>
    intro S F c hnd hmem
    obtain ⟨e, res, err⟩ := t
    have hes := hmem ⟨e, res, err⟩ (List.mem_cons_self _ _)
    simp only [List.map_cons] at hnd
    have hnd' := (List.nodup_cons.mp hnd).2
    have hne : e ∉ rest.map (fun t => t.1) := (List.nodup_cons.mp hnd).1
    cases err with
    | none =>
      have hmem' : ∀ t2, t2 ∈ rest → t2.1 ∉ keysOf (dinsert e res S) ∧ t2.1 ∉ keysOf F := by
        intro t2 ht2
        have hxe : t2.1 ≠ e := fun hxe =>
          hne (hxe ▸ List.mem_map_of_mem (fun t => t.1) ht2)
        have hxm := hmem t2 (List.mem_cons_of_mem _ ht2)
        rw [keysOf_dinsert_not_mem e _ _ hes.1]
        constructor
        · simp [List.mem_append, hxe]
          exact hxm.1
        · exact hxm.2
      obtain ⟨maps, hmm, hperm⟩ := ih (dinsert e res S) F (c + 1) hnd' hmem'
      have hstep : WithoutMcp.fan_in onQ total S F c (⟨e, res, none⟩ :: rest) =
          WithoutMcp.fan_in onQ total (dinsert e res S) F (c + 1) rest := by
        cases onQ with
        | none => simp [WithoutMcp.fan_in]
        | some f => simp [WithoutMcp.fan_in, hq f rfl (c + 1) total]
      refine ⟨maps, by rw [hstep]; exact hmm, ?_⟩
      rw [keysOf_dinsert_not_mem e _ _ hes.1] at hperm
      refine hperm.trans ?_
      have h1 : ((keysOf S ++ [e]) ++ keysOf F) ++ rest.map (fun t => t.1) =
          keysOf S ++ (e :: (keysOf F ++ rest.map (fun t => t.1))) := by
        simp [List.append_assoc]
      have h2 : (keysOf S ++ keysOf F) ++ (e :: rest.map (fun t => t.1)) =
          keysOf S ++ (keysOf F ++ (e :: rest.map (fun t => t.1))) := by
        simp [List.append_assoc]
      simp only [List.map_cons]
      rw [h1, h2]
      exact List.Perm.append_left _ List.perm_middle.symm
    | some w =>
      have hmem' : ∀ t2, t2 ∈ rest → t2.1 ∉ keysOf S ∧ t2.1 ∉ keysOf (dinsert e w F) := by
        intro t2 ht2
        have hxe : t2.1 ≠ e := fun hxe =>
          hne (hxe ▸ List.mem_map_of_mem (fun t => t.1) ht2)
        have hxm := hmem t2 (List.mem_cons_of_mem _ ht2)
        rw [keysOf_dinsert_not_mem e _ _ hes.2]
        constructor
        · exact hxm.1
        · simp [List.mem_append, hxe]
          exact hxm.2
      obtain ⟨maps, hmm, hperm⟩ := ih S (dinsert e w F) (c + 1) hnd' hmem'
      have hstep : WithoutMcp.fan_in onQ total S F c (⟨e, res, some w⟩ :: rest) =
          WithoutMcp.fan_in onQ total S (dinsert e w F) (c + 1) rest := by
        cases onQ with
        | none => simp [WithoutMcp.fan_in]
        | some f => simp [WithoutMcp.fan_in, hq f rfl (c + 1) total]
      refine ⟨maps, by rw [hstep]; exact hmm, ?_⟩
      rw [keysOf_dinsert_not_mem e _ _ hes.2] at hperm
      refine hperm.trans ?_
      have h1 : ((keysOf S ++ (keysOf F ++ [e])) ++ rest.map (fun t => t.1)) =
          (keysOf S ++ keysOf F) ++ (e :: rest.map (fun t => t.1)) := by
        simp [List.append_assoc]
      simp only [List.map_cons]
      rw [h1]

theorem perm_partition_conclusions {S F es : List String} (hperm : (S ++ F).Perm es)
    (hnd : es.Nodup) :
    S.length + F.length = es.length ∧
    (∀ x, ¬(x ∈ S ∧ x ∈ F)) ∧
    (∀ x, (x ∈ S ∨ x ∈ F) ↔ x ∈ es) := by
  refine ⟨?_, ?_, ?_⟩
  · have := hperm.length_eq
    simpa using this
  · intro x hx
    have hnodup : (S ++ F).Nodup := (hperm.nodup_iff).mpr hnd
    exact List.disjoint_of_nodup_append hnodup hx.1 hx.2
  · intro x
    rw [← List.mem_append]
    exact hperm.mem_iff

/-- C1 (amended): for every call to fetch_all on a list of pairwise-distinct
endpoints, in either variant, and with a progress callback that never raises
(or none), the returned result satisfies
|successful| + |failed| = |endpoints|, the key sets of successful and failed
are disjoint, and their union is exactly the set of input endpoints.  (With
duplicate endpoints, or with a with-mcp progress callback that raises on a
success report, the invariant fails — see the counterexample.) -/
theorem fetch_all_partition_of_nodup
    (m : ℕ) (http : String → ℕ → TransportResult) (onP : WithMcp.Progress)
    (cb : WithMcp.CircuitBreaker) (es : List String) (now : ℚ)
    (hnd : es.Nodup) (hp : progressOk onP)
    (th : ℕ) (rcv : ℚ) (m2 : ℕ) (http2 : String → ℕ → TransportResult)
    (onQ : Option (ℕ → ℕ → Except String Unit)) (reg : WithoutMcp.Registry) (now2 : ℚ)
    (hq : progressOk2 onQ)
    (r1 : WithMcp.AggregatedResult) (r2 : WithoutMcp.AggregatedResult)
    (h1 : (WithMcp.fetch_all m http onP cb es now).1 = .ok r1)
    (h2 : (WithoutMcp.fetch_all th rcv m2 http2 onQ reg es now2).1 = .ok r2) :
    (r1.successful.length + r1.failed.length = es.length ∧
     (∀ x, ¬(x ∈ keysOf r1.successful ∧ x ∈ keysOf r1.failed)) ∧
     (∀ x, (x ∈ keysOf r1.successful ∨ x ∈ keysOf r1.failed) ↔ x ∈ es)) ∧
    (r2.successful.length + r2.failed.length = es.length ∧
     (∀ x, ¬(x ∈ keysOf r2.successful ∧ x ∈ keysOf r2.failed)) ∧
     (∀ x, (x ∈ keysOf r2.successful ∨ x ∈ keysOf r2.failed) ↔ x ∈ es)) := by
  constructor
  · have hexc := run_all_exc_none m http onP es.length now hp es ⟨[], [], 0, cb⟩
    have hval : (WithMcp.fetch_all m http onP cb es now).1 =
        .ok ⟨(WithMcp.run_all m http onP es.length now ⟨[], [], 0, cb⟩ es).1.successful,
          (WithMcp.run_all m http onP es.length now ⟨[], [], 0, cb⟩ es).1.failed, 0⟩ := by
      simp [WithMcp.fetch_all, hexc]
    rw [hval] at h1
    have hr1 := (Except.ok.injEq _ _).mp h1.symm
    have hperm := run_all_keys m http onP es.length now hp es ⟨[], [], 0, cb⟩ hnd
      (fun x _ => ⟨by simp [keysOf], by simp [keysOf]⟩)
    simp only [keysOf] at hperm ⊢
    rw [hr1]
    have hperm' :
        ((WithMcp.run_all m http onP es.length now ⟨[], [], 0, cb⟩ es).1.successful.map
            Prod.fst ++
          (WithMcp.run_all m http onP es.length now ⟨[], [], 0, cb⟩ es).1.failed.map
            Prod.fst).Perm es := by
      simpa using hperm
    have hc := perm_partition_conclusions hperm' hnd
    refine ⟨?_, hc.2.1, hc.2.2⟩
    simpa using hc.1
  · obtain ⟨maps, hmm, hperm⟩ := fan_in_keys onQ es.length hq
      (WithoutMcp.run_fetches th rcv m2 http2 now2 reg es).1 [] [] 0
      (by rw [run_fetches_fst]; exact hnd)
      (fun t _ => ⟨by simp [keysOf], by simp [keysOf]⟩)
    have hval : (WithoutMcp.fetch_all th rcv m2 http2 onQ reg es now2).1 =
        .ok ⟨maps.1, maps.2, 0⟩ := by
      simp [WithoutMcp.fetch_all, hmm]
    rw [hval] at h2
    have hr2 := (Except.ok.injEq _ _).mp h2.symm
    rw [run_fetches_fst] at hperm
    simp only [keysOf] at hperm ⊢
    rw [hr2]
    have hperm' : (maps.1.map Prod.fst ++ maps.2.map Prod.fst).Perm es := by
      simpa using hperm
    have hc := perm_partition_conclusions hperm' hnd
    refine ⟨?_, hc.2.1, hc.2.2⟩
    simpa using hc.1

/-- Witness for fetch_all_partition_of_nodup: two distinct endpoints, a
transport that succeeds for both, no callback. -/
theorem fetch_all_partition_of_nodup_witness :
    ([("a", "data"), ("b", "data")] : List (String × String)).length +
      ([] : List (String × String)).length = (["a", "b"] : List String).length ∧
    (∀ x, (x ∈ keysOf [("a", "data"), ("b", "data")] ∨
      x ∈ keysOf ([] : List (String × String))) ↔ x ∈ (["a", "b"] : List String)) := by
  have h := fetch_all_partition_of_nodup 1 httpAlwaysOk none
    (WithMcp.CircuitBreaker.init 5 30) ["a", "b"] 0 (by decide) (fun _ hf => nomatch hf)
    5 30 1 httpAlwaysOk none (fun _ => none) 0 (fun _ hf => nomatch hf)
    ⟨[("a", "data"), ("b", "data")], [], 0⟩
    ⟨[("a", some "data"), ("b", some "data")], [], 0⟩ (by decide) (by decide)
  exact ⟨h.1.1, h.1.2.2⟩
